import Mathlib

/-!
Verification development for the kaijs loader core.

The definitions below are a shallow embedding of the TypeScript sources
`src/db.ts`, `src/dbMsgHandlers.ts`, `src/msg_handlers.ts` and
`src/loader_opensearch.ts`.  JSON documents (MongoDB documents, broker
message bodies) are modelled by the inductive type `Val`; the JavaScript
value `undefined` is modelled by absence (`Option.none`, or a missing
object key), while JavaScript `null` is `Val.vnull`.  Lodash helpers used
by the sources are embedded next to the functions that use them.
-/

namespace Kaijs

/-- JSON-like dynamic value, the document model shared by MongoDB documents
and broker message bodies in the sources.  Object fields are kept in
insertion order, as JavaScript objects do for string keys. -/
inductive Val where
  | vnull
  | vbool (b : Bool)
  | vnum (n : Int)
  | vstr (s : String)
  | varr (elems : List Val)
  | vobj (fields : List (String × Val))
deriving Repr

mutual

/-- Structural deep equality on `Val`, the embedding of lodash `_.isEqual`
on JSON data. -/
def Val.beq : Val → Val → Bool
  | .vnull, .vnull => true
  | .vbool a, .vbool b => a == b
  | .vnum a, .vnum b => a == b
  | .vstr a, .vstr b => a == b
  | .varr as, .varr bs => Val.beqList as bs
  | .vobj as, .vobj bs => Val.beqFields as bs
  | _, _ => false

/-- Elementwise `Val.beq` on lists. -/
def Val.beqList : List Val → List Val → Bool
  | [], [] => true
  | a :: as, b :: bs => Val.beq a b && Val.beqList as bs
  | _, _ => false

/-- Fieldwise `Val.beq` on object field lists. -/
def Val.beqFields : List (String × Val) → List (String × Val) → Bool
  | [], [] => true
  | (k, a) :: as, (l, b) :: bs => k == l && Val.beq a b && Val.beqFields as bs
  | _, _ => false

end

theorem Val.beqList_iff
    {as : List Val}
    (ih : ∀ a ∈ as, ∀ b : Val, (Val.beq a b = true) ↔ a = b) :
    ∀ bs, (Val.beqList as bs = true) ↔ as = bs := by
  induction as with
  | nil => intro bs; cases bs <;> simp [Val.beqList]
  | cons a as ih2 =>
    intro bs
    cases bs with
    | nil => simp [Val.beqList]
    | cons b bs =>
      have h1 := ih a (by simp)
      have h2 := ih2 (fun x hx b => ih x (by simp [hx]) b) bs
      simp [Val.beqList, h1 b, h2]

theorem Val.beqFields_iff
    {as : List (String × Val)}
    (ih : ∀ p ∈ as, ∀ b : Val, (Val.beq p.2 b = true) ↔ p.2 = b) :
    ∀ bs, (Val.beqFields as bs = true) ↔ as = bs := by
  induction as with
  | nil => intro bs; cases bs <;> simp [Val.beqFields]
  | cons a as ih2 =>
    intro bs
    cases bs with
    | nil => simp [Val.beqFields]
    | cons b bs =>
      obtain ⟨k, v⟩ := a
      obtain ⟨l, w⟩ := b
      have h1 := ih (k, v) (by simp)
      have h2 := ih2 (fun x hx b => ih x (by simp [hx]) b) bs
      simp only [Val.beqFields, Bool.and_eq_true, beq_iff_eq, h1 w, h2,
        List.cons.injEq, Prod.mk.injEq]

theorem Val.beq_iff_aux :
    ∀ (n : Nat) (a b : Val), sizeOf a ≤ n → ((Val.beq a b = true) ↔ a = b) := by
  intro n
  induction n with
  | zero =>
    intro a b h
    exfalso
    cases a <;> simp at h
  | succ n ih =>
    intro a b h
    cases a with
    | vnull => cases b <;> simp [Val.beq]
    | vbool x => cases b <;> simp [Val.beq]
    | vnum x => cases b <;> simp [Val.beq]
    | vstr x => cases b <;> simp [Val.beq]
    | varr as =>
      have has : sizeOf as ≤ n := by simp at h; omega
      have helem : ∀ x ∈ as, ∀ b : Val, (Val.beq x b = true) ↔ x = b := by
        intro x hx b
        exact ih x b (Nat.le_of_lt (Nat.lt_of_lt_of_le (List.sizeOf_lt_of_mem hx) has))
      cases b <;> simp only [Val.beq, reduceCtorEq, iff_false, Bool.false_eq_true,
        not_false_eq_true, Val.varr.injEq]
      exact Val.beqList_iff helem _
    | vobj fs =>
      have has : sizeOf fs ≤ n := by simp at h; omega
      have helem : ∀ p ∈ fs, ∀ b : Val, (Val.beq p.2 b = true) ↔ p.2 = b := by
        intro p hp b
        have h1 : sizeOf p.2 < sizeOf p := by
          obtain ⟨k, v⟩ := p; simp
        exact ih p.2 b
          (Nat.le_of_lt (Nat.lt_of_lt_of_le (Nat.lt_trans h1 (List.sizeOf_lt_of_mem hp)) has))
      cases b <;> simp only [Val.beq, reduceCtorEq, iff_false, Bool.false_eq_true,
        not_false_eq_true, Val.vobj.injEq]
      exact Val.beqFields_iff helem _

theorem Val.beq_iff (a b : Val) : (Val.beq a b = true) ↔ a = b :=
  Val.beq_iff_aux (sizeOf a) a b (Nat.le_refl _)

instance : DecidableEq Val := fun a b =>
  decidable_of_iff _ (Val.beq_iff a b)

/-- Property read on an object, one step of lodash `_.get`: a missing key or
a non-object receiver yields `undefined` (here `none`). -/
def getKey : Val → String → Option Val
  | Val.vobj fs, k => fs.lookup k
  | _, _ => none

/-- Lodash `_.get(value, path)` along a list of keys. -/
def getPath (d : Val) (p : List String) : Option Val :=
  p.foldl (fun acc k => acc.bind (fun v => getKey v k)) (some d)

/-- Lodash `_.isEmpty` on a possibly-undefined value: `undefined`, `null`,
booleans and numbers are empty, strings, arrays and objects are empty when
they have no elements. -/
def isEmptyOpt : Option Val → Bool
  | none => true
  | some Val.vnull => true
  | some (Val.vbool _) => true
  | some (Val.vnum _) => true
  | some (Val.vstr s) => s = ""
  | some (Val.varr l) => l.isEmpty
  | some (Val.vobj fs) => fs.isEmpty

/-- Lodash `_.isString` on a possibly-undefined value. -/
def isStringOpt : Option Val → Bool
  | some (Val.vstr _) => true
  | _ => false

/-- Extract the string of a string value, `none` otherwise. -/
def asStr : Option Val → Option String
  | some (Val.vstr s) => some s
  | _ => none

mutual

/-- JavaScript string conversion used by lodash `_.toString`: `undefined`
and `null` print as the empty string, arrays join their elements with
commas, plain objects print as `[object Object]`. -/
def toStringJs : Option Val → String
  | none => ""
  | some Val.vnull => ""
  | some (Val.vbool b) => if b then "true" else "false"
  | some (Val.vnum n) => toString n
  | some (Val.vstr s) => s
  | some (Val.varr l) => toStringJsList l
  | some (Val.vobj _) => "[object Object]"

/-- Comma-joined element strings of a JavaScript array. -/
def toStringJsList : List Val → String
  | [] => ""
  | [a] => toStringJsElem a
  | a :: rest => toStringJsElem a ++ "," ++ toStringJsList rest

/-- One array element under JavaScript `Array.prototype.toString`: `null`
and nested `undefined` print as the empty string. -/
def toStringJsElem : Val → String
  | Val.vnull => ""
  | Val.vbool b => if b then "true" else "false"
  | Val.vnum n => toString n
  | Val.vstr s => s
  | Val.varr l => toStringJsList l
  | Val.vobj _ => "[object Object]"

end

/-- JavaScript property-key conversion `String(value)` as used by lodash
`_.groupBy` and `_.keyBy`: like `toStringJs` except that `undefined` and
`null` keep their names. -/
def keyOfOpt : Option Val → String
  | none => "undefined"
  | some Val.vnull => "null"
  | v => toStringJs v

/-- Lodash `_.size` of a possibly-undefined value: length for strings and
arrays, key count for objects, zero otherwise. -/
def jsSize : Option Val → Nat
  | some (Val.vstr s) => s.length
  | some (Val.varr l) => l.length
  | some (Val.vobj fs) => fs.length
  | _ => 0

/-- Split a character list on a separator character; the embedding of
JavaScript `String.prototype.split` with a one-character separator (the
lodash `_.split(routingKey, dot)` of the sources).  An empty input yields
one empty segment, as in JavaScript. -/
def splitListOn (c : Char) : List Char → List (List Char)
  | [] => [[]]
  | x :: xs =>
    if x = c then [] :: splitListOn c xs
    else
      match splitListOn c xs with
      | h :: t => (x :: h) :: t
      | [] => [[x]]

/-- `_.split(s, dot)`: the dot-separated segments of a routing key. -/
def splitOnDot (s : String) : List String :=
  (splitListOn '.' s.data).map (fun cs => String.mk cs)

/-- Assign a field on an object field list: replace the first binding of
the key in place, or append a new binding, as JavaScript assignment on
plain objects does. -/
def setField : List (String × Val) → String → Val → List (String × Val)
  | [], k, v => [(k, v)]
  | (k2, w) :: rest, k, v =>
    if k2 = k then (k, v) :: rest else (k2, w) :: setField rest k v

/-- Assign a field on a value; non-objects are left unchanged. -/
def setKey (d : Val) (k : String) (v : Val) : Val :=
  match d with
  | Val.vobj fs => Val.vobj (setField fs k v)
  | _ => d

/-- A field binding used when building object literals whose JavaScript
source would carry an `undefined` value: such keys are modelled as absent. -/
def optField (k : String) : Option Val → List (String × Val)
  | some v => [(k, v)]
  | none => []

/-!
## The Updater retry loop, `Artifacts.add` in `src/db.ts`

The loop state that matters for the retry bound is `retries_left` and
whether an iteration produced a document.  One attempt of the source loop
performs handler invocation, re-read and compare-and-swap; everything an
attempt does is abstracted into an oracle `f : Nat → Option A` giving the
outcome of attempt number `i` (counted from 0): `some doc` when the
iteration returns a document (empty update set, or a successful
conditional write), `none` when the iteration must retry (a
`findOrCreate` error or a missed conditional write).  The source:

  `let retries_left = 30;`
  `while (_.isNull(modifiedDocument) && retries_left > 1) {`
  `  retries_left -= 1;`
  `  if (retries_left === 0) { break; }`
  `  ...one attempt...`
  `}`
  `throw new Error(... All attempts failed.)`

The function returns the produced document (or `none` for the final
throw) together with the number of attempts performed. -/
def add_retry_go {A : Type} (f : Nat → Option A) (attempt : Nat) : Nat → Option A × Nat
  | 0 => (none, attempt)
  | r + 1 =>
    if 1 < r + 1 then
      -- after the decrement retries_left is r; the source guard
      -- `if (retries_left === 0) break` can never fire here, because the
      -- loop is entered only with retries_left > 1
      if r = 0 then (none, attempt)
      else
        match f attempt with
        | some v => (some v, attempt + 1)
        | none => add_retry_go f (attempt + 1) r
    else (none, attempt)

/-- The retry loop of `Artifacts.add` started with `retries_left = 30`. -/
def add_retry {A : Type} (f : Nat → Option A) : Option A × Nat :=
  add_retry_go f 0 30

/-!
## The sub-record merge, `customMerge` and `_.mergeWith`

`customMerge` appears identically in `src/msg_handlers.ts` and
`src/dbMsgHandlers.ts`.  It is the customizer passed to lodash
`_.mergeWith`; the default merge applies whenever it returns `undefined`:
source properties resolving to `undefined` are skipped, arrays and plain
objects are merged recursively (arrays index by index, keeping destination
elements beyond the source length), all other source values are assigned. -/
def customMerge : Option Val → Val → Option Val
  | some (Val.varr ds), Val.varr [] => some (Val.varr ds)
  | some (Val.vstr s), Val.vstr "" => some (Val.vstr s)
  | _, _ => none

mutual

/-- Lodash `_.mergeWith(dst, src, customMerge)` restricted to the shapes
the handlers use: both roots are plain objects (any other combination
leaves the destination unchanged, which the handlers never rely on). -/
def mergeWithCM : Val → Val → Val
  | Val.vobj dfs, Val.vobj sfs => Val.vobj (mergeFields dfs sfs)
  | d, _ => d

/-- Merge the source field list into the destination field list, one
source property at a time, in source order. -/
def mergeFields (dfs : List (String × Val)) : List (String × Val) → List (String × Val)
  | [] => dfs
  | (k, sv) :: rest =>
    mergeFields (setField dfs k (mergeValue (dfs.lookup k) sv)) rest

/-- Merge one source property value onto the destination value at the same
key.  The customizer is consulted first; on `undefined` the lodash default
applies: recursive merge for object-object and array-array pairs,
assignment otherwise. -/
def mergeValue (ov : Option Val) (sv : Val) : Val :=
  match customMerge ov sv with
  | some r => r
  | none =>
    match ov, sv with
    | some (Val.vobj dfs), Val.vobj sfs => Val.vobj (mergeFields dfs sfs)
    | some (Val.varr ds), Val.varr ss => Val.varr (mergeArr ds ss)
    | _, _ => sv

/-- Index-by-index merge of two JavaScript arrays as lodash performs it:
source elements are merged onto the destination element at the same index,
destination elements beyond the source length are kept. -/
def mergeArr : List Val → List Val → List Val
  | ds, [] => ds
  | [], s :: ss => mergeValue none s :: mergeArr [] ss
  | d :: ds, s :: ss => mergeValue (some d) s :: mergeArr ds ss

end

/-!
## Path utilities used by `Artifacts.mk_update_set`

Modelled from the spec: the helpers `paths_mongodb_pack_array`,
`drop_empty_paths` and `path_mongodb_to_lodash` live in `src/paths.ts`,
which is not part of the sources at hand.  The spec describes their
contract in the `update_set` computation: the proposal is decomposed into
its leaf paths, "arrays are always written whole from the proposal (never
merged at this layer)" so an array is a leaf, and "paths resolving to
null/undefined/empty in the proposal are dropped".  Paths are modelled as
key lists, which also stands in for `path_mongodb_to_lodash` (the
dotted-string versus list distinction of the original).  A field holding
an empty object contributes no leaf path. -/

mutual

/-- Leaf paths of a document; arrays are packed whole, so any non-object
value under a key is a leaf at that key. -/
def paths_mongodb_pack_array : Val → List (List String)
  | Val.vobj fs => paths_pack_fields fs
  | _ => []

/-- Leaf paths contributed by an object field list. -/
def paths_pack_fields : List (String × Val) → List (List String)
  | [] => []
  | (k, v) :: rest =>
    (match v with
     | Val.vobj _ => (paths_mongodb_pack_array v).map (fun p => k :: p)
     | _ => [[k]]) ++ paths_pack_fields rest

end

/-- Drop the paths that resolve to `null` or `undefined` in the given
document. -/
def drop_empty_paths (ps : List (List String)) (d : Val) : List (List String) :=
  ps.filter (fun p =>
    match getPath d p with
    | some Val.vnull => false
    | none => false
    | _ => true)

/-!
## `Artifacts.mk_update_set` in `src/db.ts`

The source computes `_.differenceWith(paths_new, paths_present, cmp)`
where `cmp(new_path, old_path)` is true when the proposal value at
`new_path` equals (lodash `_.isEqual`) the persisted value at `old_path`.
`_.differenceWith` keeps an element of the first list exactly when the
comparator relates it to no element of the second list, so a new path
survives only when its value differs from the persisted value at every
persisted path, not merely at the same path.  The result maps each
surviving path to its proposal value (`_.fromPairs` over `_.over` pairs). -/
def mk_update_set (present newdata : Val) : List (List String × Option Val) :=
  let paths_new := drop_empty_paths (paths_mongodb_pack_array newdata) newdata
  let paths_present := drop_empty_paths (paths_mongodb_pack_array present) present
  let paths_update := paths_new.filter (fun np =>
    paths_present.all (fun op => !(getPath newdata np == getPath present op)))
  paths_update.map (fun p => (p, getPath newdata p))

/-- The update-set computation as the claim states it: exactly the leaf
paths of the proposal, arrays packed whole and null/undefined dropped,
whose proposal value differs from the persisted value at the same path. -/
def mk_update_set_claim (present newdata : Val) : List (List String × Option Val) :=
  let paths_new := drop_empty_paths (paths_mongodb_pack_array newdata) newdata
  let paths_update := paths_new.filter (fun p =>
    !(getPath newdata p == getPath present p))
  paths_update.map (fun p => (p, getPath newdata p))

/-!
## Broker messages and the state synthesis of `src/dbMsgHandlers.ts`
-/

/-- One broker message as the db handlers receive it: destructured in the
source as `const (address: routingKey, message_id, body: msg) = broker_msg`. -/
structure BrokerMsg where
  address : String
  message_id : String
  body : Val
deriving Repr, DecidableEq

/-- External collaborators of the handlers that are opaque to this
development: the `crypto` sha256 hex digest and `Date.parse`.  `dateParse`
returns `none` where JavaScript would produce `NaN`. -/
structure JsExt where
  sha256hex : String → String
  dateParse : Option Val → Option Int

/-- Errors a handler can surface.  `noThreadId` models `NoThreadIdError`:
the constructor exists in the source, but as shown below it is never
raised, because `mk_thread_id` constructs the error object without
throwing it. -/
inductive HandlerErr where
  | validation
  | noThreadId
  | updateExhausted
deriving Repr, DecidableEq

/-- `mk_thread_id` from `src/dbMsgHandlers.ts` (identical to `mkThreadId`
in `src/msg_handlers.ts`): prefer a non-empty string `body.pipeline.id`,
else hash a non-empty string `body.run.url` into a dummy thread id.  When
both are missing the source evaluates `new NoThreadIdError(...)` WITHOUT
`throw`, so control falls off the function and `undefined` is returned;
the embedding therefore returns `none` on that branch. -/
def mk_thread_id (ext : JsExt) (m : BrokerMsg) : Option String :=
  let thread_id := getPath m.body ["pipeline", "id"]
  if !(isEmptyOpt thread_id) && isStringOpt thread_id then
    asStr thread_id
  else
    let run_url := getPath m.body ["run", "url"]
    if !(isEmptyOpt run_url) && isStringOpt run_url then
      (asStr run_url).map (fun u => "dummy-thread-" ++ ext.sha256hex u)
    else
      none

/-- Modelled from the spec: the `kai_state` schema checked by
`assert_is_valid(kai_state, kai_state-schema)`; `src/validation.ts` is not
among the sources.  Following the KaiState record of the spec, the
mandatory fields `thread_id`, `msg_id`, `version`, `stage`, `state` must
be strings and `timestamp` must be a number (a `NaN` timestamp, modelled
as a missing field, is rejected, matching the spec boundary that a body
without `generated_at` is routed to the invalid store). -/
def assert_is_valid_kai_state (ks : Val) : Bool :=
  isStringOpt (getKey ks "thread_id") &&
  isStringOpt (getKey ks "msg_id") &&
  isStringOpt (getKey ks "version") &&
  isStringOpt (getKey ks "stage") &&
  isStringOpt (getKey ks "state") &&
  (match getKey ks "timestamp" with
   | some (Val.vnum _) => true
   | _ => false)

/-- `mk_state` from `src/dbMsgHandlers.ts`: synthesize the `kai_state`
record and the wrapping `ArtifactState` from one broker message.  `state`
and `stage` are the last and second-to-last dot segments of the routing
key, `timestamp` is `Date.parse(body.generated_at)`, and the optional
`test_case_name` is added when `body.test.namespace`, `body.test.type`
and `body.test.category` all have positive lodash size. -/
def mk_state (ext : JsExt) (m : BrokerMsg) : Except HandlerErr Val :=
  let thread_id := mk_thread_id ext m
  let parts := splitOnDot m.address
  let state := (parts.getLast?).getD ""
  let stage := if parts.length ≥ 2 then parts.get? (parts.length - 2) else none
  let timestamp := ext.dateParse (getPath m.body ["generated_at"])
  let base :=
    optField "thread_id" (thread_id.map Val.vstr) ++
    [("msg_id", Val.vstr m.message_id)] ++
    optField "version" (getPath m.body ["version"]) ++
    optField "stage" (stage.map Val.vstr) ++
    [("state", Val.vstr state)] ++
    optField "timestamp" (timestamp.map Val.vnum) ++
    [("origin", Val.vobj [("creator", Val.vstr "kaijs-loader"),
                          ("reason", Val.vstr "broker message")])]
  let ns := getPath m.body ["test", "namespace"]
  let ty := getPath m.body ["test", "type"]
  let ca := getPath m.body ["test", "category"]
  let kai_state :=
    if jsSize ns ≠ 0 ∧ jsSize ty ≠ 0 ∧ jsSize ca ≠ 0 then
      Val.vobj (base ++
        [("test_case_name",
          Val.vstr (keyOfOpt ns ++ "." ++ keyOfOpt ty ++ "." ++ keyOfOpt ca))])
    else Val.vobj base
  if assert_is_valid_kai_state kai_state then
    Except.ok (Val.vobj [("broker_msg_body", m.body), ("kai_state", kai_state)])
  else
    Except.error HandlerErr.validation

/-!
## Derived-field refresh, `actualize_current_states` in `src/dbMsgHandlers.ts`
-/

/-- The grouping key used by `_.groupBy(states, path)`: the property value
converted to a JavaScript object key. -/
def threadKey (e : Val) : String :=
  keyOfOpt (getPath e ["kai_state", "thread_id"])

/-- The grouping key for `_.groupBy(..., kai_state.state path)`. -/
def stateKey (e : Val) : String :=
  keyOfOpt (getPath e ["kai_state", "state"])

/-- Lodash `_.groupBy` restricted to what the claims need: each distinct
key maps to the sublist of elements having that key.  `List.dedup` orders
the distinct keys differently from lodash (which keeps first occurrences)
but yields the same key set and the same per-key groups. -/
def groupByKey {A : Type} (key : A → String) (l : List A) : List (String × List A) :=
  ((l.map key).dedup).map (fun k => (k, l.filter (fun e => key e = k)))

/-- The timestamp property ordered on by `_.orderBy(..., kai_state.timestamp,
desc)`. -/
def tsOf (e : Val) : Option Val :=
  getPath e ["kai_state", "timestamp"]

/-- Descending comparison on timestamps: `true` when the first entry sorts
no later than the second.  Non-numeric timestamps are not ordered by the
model; the invariants below are stated for numeric timestamps only. -/
def tsGe (a b : Val) : Bool :=
  match tsOf a, tsOf b with
  | some (Val.vnum x), some (Val.vnum y) => y ≤ x
  | _, _ => false

/-- The integer timestamp of an entry, used to state the ordering
invariants (entries with non-numeric timestamps read as 0; the invariants
are stated under the hypothesis that every timestamp is numeric). -/
def tsInt (e : Val) : Int :=
  match tsOf e with
  | some (Val.vnum n) => n
  | _ => 0

/-- Stable descending insertion for `_.orderBy(..., desc)`. -/
def insertDesc (a : Val) : List Val → List Val
  | [] => [a]
  | b :: t => if tsGe a b then a :: b :: t else b :: insertDesc a t

/-- `_.orderBy(group, kai_state.timestamp path, desc)`: a stable
descending sort by timestamp (elements are inserted from the right, so an
earlier element precedes later elements with an equal key). -/
def orderByTsDesc (l : List Val) : List Val :=
  l.foldr insertDesc []

/-- The thread groups of a states array:
`_.values(_.groupBy(states, kai_state.thread_id path))`. -/
def states_for_same_thread (l : List Val) : List (List Val) :=
  (groupByKey threadKey l).map (fun kg => kg.2)

/-- The most recent entry of each thread group: `_.orderBy` descending by
timestamp, then `_.first`, flattened. -/
def recent_for_each_thread (l : List Val) : List Val :=
  (states_for_same_thread l).filterMap (fun g => (orderByTsDesc g).head?)

/-- The known state keys: the raw distinct `kai_state.state` values with
the lodash-empty ones removed, turned into object keys by `_.keyBy`. -/
def known_state_keys (l : List Val) : List String :=
  ((((l.map (fun e => getPath e ["kai_state", "state"])).dedup).filter
      (fun v => !(isEmptyOpt v))).map keyOfOpt).dedup

/-- The `current_state` construction of `actualize_current_states`: group
`states` by `thread_id`, keep the most recent entry of each group, group
those survivors by `state`, then add an empty bucket for every known
non-empty `state` value that has no surviving entry
(`_.assign(current_state, _.omit(current_state_empty, keys))`). -/
def mk_current_state (l : List Val) : List (String × List Val) :=
  let current_state := groupByKey stateKey (recent_for_each_thread l)
  current_state ++
    (((known_state_keys l).filter
        (fun k => !((current_state.map (fun kg => kg.1)).contains k))).map
      (fun k => (k, [])))

/-- The `current_state_lenghts` map: each bucket of `current_state` mapped
to its size. -/
def mk_current_state_lenghts (l : List Val) : List (String × Nat) :=
  (mk_current_state l).map (fun kg => (kg.1, kg.2.length))

/-- The `resultsdb_testcase` list: distinct `kai_state.test_case_name`
values across all states, lodash-empty ones removed. -/
def mk_resultsdb_testcase (l : List Val) : List Val :=
  ((l.map (fun e => getPath e ["kai_state", "test_case_name"])).dedup.filter
    (fun v => !(isEmptyOpt v))).filterMap id

/-- The states array of a document, `db_artifact.states` read as a list
(`_.defaultTo(db_artifact.states, [])`). -/
def statesOf (d : Val) : List Val :=
  match getKey d "states" with
  | some (Val.varr l) => l
  | _ => []

/-- `actualize_current_states` from `src/dbMsgHandlers.ts`: refresh the
derived fields `current_state`, `current_state_lenghts` and
`resultsdb_testcase` of a document from its `states` array. -/
def actualize_current_states (d : Val) : Val :=
  let l := statesOf d
  let cs := mk_current_state l
  let d1 := setKey d "current_state"
    (Val.vobj (cs.map (fun kg => (kg.1, Val.varr kg.2))))
  let d2 := setKey d1 "current_state_lenghts"
    (Val.vobj ((mk_current_state_lenghts l).map (fun kn => (kn.1, Val.vnum kn.2))))
  setKey d2 "resultsdb_testcase" (Val.varr (mk_resultsdb_testcase l))

/-!
## The MongoDB adapter of `src/db.ts`, as an in-memory store

A collection is a list of documents.  `findOneAndUpdate` is embedded with
the exact option set the source uses (`returnOriginal: false`, so the
updated document is returned) for equality filters and updates built from
`$setOnInsert`, `$set` and `$inc`; an upsert seeds the new document from
the equality conditions of the filter, as MongoDB does.
-/

/-- An equality filter: every listed path must hold the listed value. -/
def matchesFilter (d : Val) (flt : List (List String × Val)) : Bool :=
  flt.all (fun pv => getPath d pv.1 == some pv.2)

/-- A MongoDB update document restricted to the operators the source
uses. -/
structure UpdateDoc where
  setOnInsert : List (List String × Option Val) := []
  set : List (List String × Option Val) := []
  inc : List (List String × Int) := []

/-- MongoDB dotted-path assignment: intermediate objects are created when
missing; a non-object intermediate leaves the document unchanged (MongoDB
would reject the write; the development never reaches that case). -/
def setPath : Val → List String → Val → Val
  | _, [], v => v
  | d, k :: rest, v =>
    match d with
    | Val.vobj fs => Val.vobj (setField fs k (setPath ((fs.lookup k).getD (Val.vobj [])) rest v))
    | _ => d

/-- Apply a `$set`-style assignment list (entries with an undefined value
are skipped; the source never produces them). -/
def applySet (d : Val) (us : List (List String × Option Val)) : Val :=
  us.foldl (fun acc pu =>
    match pu.2 with
    | some v => setPath acc pu.1 v
    | none => acc) d

/-- MongoDB `$inc` on one numeric path; a missing path is created with the
increment as value. -/
def incPath (d : Val) (p : List String) (k : Int) : Val :=
  match getPath d p with
  | some (Val.vnum n) => setPath d p (Val.vnum (n + k))
  | _ => setPath d p (Val.vnum k)

/-- Apply an update document; `$setOnInsert` only takes effect on an
insert. -/
def applyUpdate (isInsert : Bool) (d : Val) (u : UpdateDoc) : Val :=
  let d1 := if isInsert then applySet d u.setOnInsert else d
  let d2 := applySet d1 u.set
  u.inc.foldl (fun acc pk => incPath acc pk.1 pk.2) d2

/-- The document an upsert starts from: the equality conditions of the
filter written into an empty document. -/
def seedFromFilter (flt : List (List String × Val)) : Val :=
  flt.foldl (fun acc pv => setPath acc pv.1 pv.2) (Val.vobj [])

/-- MongoDB `findOneAndUpdate` with `returnOriginal: false`: update the
first matching document in place and return it; with `upsert` set, insert
(and return) a seeded document when nothing matches. -/
def findOneAndUpdate :
    List Val → List (List String × Val) → UpdateDoc → Bool → Option Val × List Val
  | [], flt, u, upsert =>
    if upsert then
      let nd := applyUpdate true (seedFromFilter flt) u
      (some nd, [nd])
    else (none, [])
  | d :: rest, flt, u, upsert =>
    if matchesFilter d flt then
      let d2 := applyUpdate false d u
      (some d2, d2 :: rest)
    else
      let r := findOneAndUpdate rest flt u upsert
      (r.1, d :: r.2)

/-- The first document matching an equality filter. -/
def firstMatch (store : List Val) (flt : List (List String × Val)) : Option Val :=
  store.find? (fun d => matchesFilter d flt)

/-- `Artifacts.findOrCreate(type, aid)` from `src/db.ts`:
`findOneAndUpdate` on the filter `(type, aid)` whose update carries only
`$setOnInsert: (type, aid, _version: 1)`, with upsert enabled and the
updated document returned. -/
def findOrCreate (t a : String) (store : List Val) : Val × List Val :=
  let r := findOneAndUpdate store
    [(["type"], Val.vstr t), (["aid"], Val.vstr a)]
    { setOnInsert := [(["type"], some (Val.vstr t)),
                      (["aid"], some (Val.vstr a)),
                      (["_version"], some (Val.vnum 1))] }
    true
  (r.1.getD (Val.vobj []), r.2)

/-- The `(type, aid)` pair a test-state message addresses:
`const (test, artifact) = msg; artifact.type` and
`_.toString(artifact.id)`. -/
def msgType (m : BrokerMsg) : String :=
  (asStr (getPath m.body ["artifact", "type"])).getD ""

/-- The stringified artifact id of a test-state message. -/
def msgAid (m : BrokerMsg) : String :=
  toStringJs (getPath m.body ["artifact", "id"])

/-- `handler_rpm_build_test_common` from `src/dbMsgHandlers.ts`:
find-or-create the document for `(artifact.type, artifact.id)`, build the
partial `rpm_build` record from the message (keys holding `undefined` are
modelled as absent, which is how `_.mergeWith` treats them), synthesize
the new `ArtifactState`, append it to `states` unless its `msg_id` is
already present (refreshing the derived fields on append), and merge the
`rpm_build` record with `customMerge`. -/
def handler_rpm_build_test_common (ext : JsExt) (m : BrokerMsg) (store : List Val) :
    Except HandlerErr (Val × List Val) :=
  let fc := findOrCreate (msgType m) (msgAid m) store
  let db0 := fc.1
  let rpm_build := Val.vobj (
    optField "task_id" (getPath m.body ["artifact", "id"]) ++
    optField "nvr" (getPath m.body ["artifact", "nvr"]) ++
    optField "source" (getPath m.body ["artifact", "source"]) ++
    optField "issuer" (getPath m.body ["artifact", "issuer"]) ++
    optField "scratch" (getPath m.body ["artifact", "scratch"]) ++
    optField "component" (getPath m.body ["artifact", "component"]))
  match mk_state ext m with
  | Except.error e => Except.error e
  | Except.ok artifact_new_state =>
    let states0 := statesOf db0
    let db1 := setKey db0 "states" (Val.varr states0)
    let db2 :=
      if !((states0.map (fun e => getPath e ["kai_state", "msg_id"])).contains
            (some (Val.vstr m.message_id))) then
        actualize_current_states (setKey db1 "states" (Val.varr (states0 ++ [artifact_new_state])))
      else db1
    let db3 := setKey db2 "rpm_build"
      (mergeWithCM ((getKey db2 "rpm_build").getD (Val.vobj [])) rpm_build)
    Except.ok (db3, fc.2)

/-- Modelled from the spec: the `db_artifact` schema checked by
`assert_is_valid(artifact, db_artifact-schema)`; `src/validation.ts` is
not among the sources.  Per the ArtifactModel of the spec the identity
fields `type` and `aid` are mandatory strings and `_version` is a
positive integer. -/
def validate_db_artifact (d : Val) : Bool :=
  isStringOpt (getKey d "type") &&
  isStringOpt (getKey d "aid") &&
  (match getKey d "_version" with
   | some (Val.vnum n) => 1 ≤ n
   | _ => false)

/-- `Artifacts.add` from `src/db.ts`, for a topic routed to
`handler_rpm_build_test_common`, over the in-memory store: invoke the
handler, validate the proposal, re-read the persisted document with
`findOrCreate`, compute the update set, return the proposal on an empty
update set, otherwise write through the version-checked conditional
update and return the updated document.  The document identity `_id` of
the original filter is represented by the unique `(type, aid)` pair.
Against the in-memory store the handler and the conditional write are
deterministic and the write cannot miss, so the first iteration of the
source retry loop decides the outcome (the loop itself is embedded
separately as `add_retry`).  The third component of the result counts the
conditional writes performed. -/
def Artifacts.add (ext : JsExt) (m : BrokerMsg) (store : List Val) :
    Except HandlerErr (Val × List Val × Nat) :=
  match handler_rpm_build_test_common ext m store with
  | Except.error e => Except.error e
  | Except.ok (artifact, s1) =>
    if validate_db_artifact artifact then
      let t := (asStr (getKey artifact "type")).getD ""
      let a := (asStr (getKey artifact "aid")).getD ""
      let fc := findOrCreate t a s1
      let db_entry := fc.1
      let s2 := fc.2
      let update_set := mk_update_set db_entry artifact
      if update_set = [] then
        Except.ok (artifact, s2, 0)
      else
        let flt := [(["type"], (getKey db_entry "type").getD Val.vnull),
                    (["aid"], (getKey db_entry "aid").getD Val.vnull),
                    (["_version"], (getKey db_entry "_version").getD Val.vnull)]
        let r := findOneAndUpdate s2 flt
          { set := update_set, inc := [(["_version"], 1)] } false
        match r.1 with
        | some doc => Except.ok (doc, r.2, 1)
        | none => Except.error HandlerErr.updateExhausted
    else Except.error HandlerErr.validation

/-!
## The bulk loader loop of `src/loader_opensearch.ts`

The consumer loop pops file-queue entries, validates each against the
`fq_msg` schema, accumulates the upserts of valid messages and flushes
the batch when, after appending the current message, the inter-message
gap reached 3 seconds or the batch reached 100 operations or the
accumulated size reached the maximum.  It is embedded as a fold over the
finite list of popped messages: each popped message carries its pop time
(`new Date()`), its schema-validity, and the serialized sizes of the
upserts `getMsgUpserts` produces for it.  The blocking `fq.tpop` wait is
the end of the list: nothing happens after the last pop.  A flush either
commits all accumulated file-queue entries, or (when the bulk write
fails, as decided by the oracle indexed by the bulk call number) rolls
all of them back and exits the process.
-/

/-- One popped file-queue message as the loop observes it. -/
structure LoaderMsg where
  valid : Bool
  arrivalMs : Nat
  upserts : List Nat
  entryId : Nat
deriving Repr, DecidableEq

/-- The loop state of the bulk loader: the accumulated upserts (tagged
with the file-queue entry that produced them), the accumulated size, the
previous message time, the uncommitted entries, and the observable
outcomes (committed entries, rolled-back entries, bulk calls made, and
whether the process exited after a failed flush). -/
structure LoaderState where
  bulkUpserts : List (Nat × Nat) := []
  bulkSizeBytes : Nat := 0
  prevMsgTimeMs : Nat := 0
  fqEntries : List Nat := []
  committed : List Nat := []
  rolledBack : List Nat := []
  bulkCalls : List (List (Nat × Nat)) := []
  exited : Bool := false
deriving Repr, DecidableEq

/-- `bulkMaxEntries` of the source. -/
def bulkMaxEntries : Nat := 100

/-- `bulkMaxSize` of the source. -/
def bulkMaxSize : Nat := 1024 * 1024 * 1024 * 50

/-- One iteration of the bulk-loader loop on one popped message.  An
invalid message is committed at once and nothing else changes.  A valid
message updates the idle clock, appends its upserts and its entry, and
then either continues (gap below 3 seconds, batch below 100 operations,
size below the maximum) or flushes. -/
def loader_step (bulkFails : Nat → Bool) (st : LoaderState) (m : LoaderMsg) : LoaderState :=
  if st.exited then st
  else if !m.valid then
    { st with committed := st.committed ++ [m.entryId] }
  else
    let gapMs := m.arrivalMs - st.prevMsgTimeMs
    let bulkUpserts := st.bulkUpserts ++ m.upserts.map (fun sz => (m.entryId, sz))
    let bulkSizeBytes := st.bulkSizeBytes + m.upserts.sum
    let fqEntries := st.fqEntries ++ [m.entryId]
    let st1 := { st with
      prevMsgTimeMs := m.arrivalMs
      bulkUpserts := bulkUpserts
      bulkSizeBytes := bulkSizeBytes
      fqEntries := fqEntries }
    if gapMs < 3000 ∧ bulkUpserts.length < bulkMaxEntries ∧ bulkSizeBytes < bulkMaxSize then
      st1
    else
      let st2 := { st1 with bulkCalls := st1.bulkCalls ++ [st1.bulkUpserts] }
      if bulkFails st1.bulkCalls.length then
        { st2 with rolledBack := st2.rolledBack ++ st2.fqEntries, exited := true }
      else
        { st2 with
          bulkUpserts := []
          bulkSizeBytes := 0
          committed := st2.committed ++ st2.fqEntries
          fqEntries := [] }

/-- The bulk-loader loop over a finite list of popped messages. -/
def loader_run (bulkFails : Nat → Bool) (init : LoaderState) (msgs : List LoaderMsg) :
    LoaderState :=
  msgs.foldl (loader_step bulkFails) init

/-!
## Claim-side definitions

These definitions follow the wording of the specification claims (not the
source); they exist to be compared with the source-derived definitions
above.
-/

/-- The non-empty `kai_state.state` string values observed across a states
array, as the derived-field claim words the key set of
`current_state_lenghts`. -/
def observed_nonempty_states (l : List Val) : List String :=
  ((l.filterMap (fun e => asStr (getPath e ["kai_state", "state"]))).filter
    (fun s => s ≠ "")).dedup

/-!
## Concrete fixtures

Inputs used to evaluate the embedded functions at specific points.  The
external hash and date parser are given simple computable stands-in; no
statement below depends on their actual values.
-/

/-- A computable stand-in for the external collaborators: the hash is the
identity, and `Date.parse` maps any string to 1000. -/
def ext0 : JsExt :=
  ⟨fun s => s, fun v => match v with | some (Val.vstr _) => some 1000 | _ => none⟩

/-- An envelope whose body lacks both `pipeline.id` and `run.url`. -/
def mEmpty : BrokerMsg :=
  ⟨"org.centos.prod.ci.koji-build.test.complete", "M0", Val.vobj []⟩

/-- A persisted document with two scalar `rpm_build` fields. -/
def presC3 : Val := Val.vobj [("a", Val.vnum 1), ("b", Val.vnum 2)]

/-- A proposal that changes `a` to the value `b` already holds. -/
def newC3 : Val := Val.vobj [("a", Val.vnum 2), ("b", Val.vnum 2)]

/-- A state entry whose `kai_state.state` is the empty string. -/
def e0C5 : Val := Val.vobj [("kai_state", Val.vobj
  [("thread_id", Val.vstr "t"), ("state", Val.vstr ""), ("timestamp", Val.vnum 5)])]

/-- A state entry: thread `t`, state `queued`, timestamp 5. -/
def eA : Val := Val.vobj [("kai_state", Val.vobj
  [("thread_id", Val.vstr "t"), ("state", Val.vstr "queued"),
   ("timestamp", Val.vnum 5), ("msg_id", Val.vstr "a")])]

/-- A state entry: thread `t`, state `complete`, timestamp 9. -/
def eB : Val := Val.vobj [("kai_state", Val.vobj
  [("thread_id", Val.vstr "t"), ("state", Val.vstr "complete"),
   ("timestamp", Val.vnum 9), ("msg_id", Val.vstr "b")])]

/-- An existing artifact document whose `rpm_build.source` holds the value
the incoming message proposes for `rpm_build.nvr`. -/
def d0C4 : Val := Val.vobj [("type", Val.vstr "koji-build"), ("aid", Val.vstr "42"),
  ("_version", Val.vnum 1),
  ("rpm_build", Val.vobj [("nvr", Val.vstr "x"), ("source", Val.vstr "y")])]

/-- A CI test-complete envelope for the artifact of `d0C4` proposing
`nvr = y` and `source = z`. -/
def mC4 : BrokerMsg := ⟨"org.centos.prod.ci.koji-build.test.complete", "M1",
  Val.vobj [("version", Val.vstr "0.2.1"),
            ("artifact", Val.vobj [("type", Val.vstr "koji-build"), ("id", Val.vnum 42),
                                   ("nvr", Val.vstr "y"), ("source", Val.vstr "z")]),
            ("pipeline", Val.vobj [("id", Val.vstr "P1")]),
            ("generated_at", Val.vstr "2022-01-01")]⟩

instance {E X : Type} [DecidableEq E] [DecidableEq X] : DecidableEq (Except E X) := fun a b =>
  match a, b with
  | Except.ok x, Except.ok y =>
    if h : x = y then Decidable.isTrue (by rw [h])
    else Decidable.isFalse (by intro he; cases he; exact h rfl)
  | Except.error x, Except.error y =>
    if h : x = y then Decidable.isTrue (by rw [h])
    else Decidable.isFalse (by intro he; cases he; exact h rfl)
  | Except.ok _, Except.error _ => Decidable.isFalse (by intro he; cases he)
  | Except.error _, Except.ok _ => Decidable.isFalse (by intro he; cases he)

/-- The document an `Artifacts.add` outcome returned. -/
def addDoc (r : Except HandlerErr (Val × List Val × Nat)) : Option Val :=
  match r with
  | Except.ok x => some x.1
  | Except.error _ => none

/-- The store an `Artifacts.add` outcome left behind. -/
def addStore (r : Except HandlerErr (Val × List Val × Nat)) : List Val :=
  match r with
  | Except.ok x => x.2.1
  | Except.error _ => []

/-- The number of conditional writes an `Artifacts.add` outcome performed. -/
def addWrites (r : Except HandlerErr (Val × List Val × Nat)) : Nat :=
  match r with
  | Except.ok x => x.2.2
  | Except.error _ => 0

/-- The store after the first delivery of `mC4` to `d0C4`. -/
def store1C4 : List Val := addStore (Artifacts.add ext0 mC4 [d0C4])

/-- The store after the second delivery of `mC4`. -/
def store2C4 : List Val := addStore (Artifacts.add ext0 mC4 store1C4)

/-- The document persisted after the second delivery of `mC4`. -/
def p2C4 : Val := (findOrCreate "koji-build" "42" store2C4).1

/-- The `ArtifactState` synthesized from `mC4`. -/
def stC4 : Val :=
  match mk_state ext0 mC4 with
  | Except.ok v => v
  | Except.error _ => Val.vnull

/-- A file-queue entry id is fresh for a loader state when it appears in
none of the in-flight structures: not among the uncommitted entries, not
tagged on any accumulated or already-flushed upsert, and not rolled
back. -/
def LoaderFresh (id : Nat) (st : LoaderState) : Prop :=
  id ∉ st.fqEntries ∧
  id ∉ st.bulkUpserts.map Prod.fst ∧
  id ∉ st.rolledBack ∧
  ∀ call ∈ st.bulkCalls, ∀ u ∈ call, u.1 ≠ id

/-- Three valid loader messages popped at 200ms, 700ms and 1200ms, one
upsert of 10 bytes each. -/
def msgsC7 : List LoaderMsg :=
  [⟨true, 200, [10], 1⟩, ⟨true, 700, [10], 2⟩, ⟨true, 1200, [10], 3⟩]

/-- A fourth loader message popped 4 seconds after the third. -/
def m4C7 : LoaderMsg := ⟨true, 5200, [10], 4⟩

/-- The loader state after the three messages of `msgsC7`. -/
def stC7 : LoaderState := loader_run (fun _ => false) {} msgsC7

end Kaijs

namespace Kaijs

/-!
## Supporting lemmas
-/

theorem add_retry_go_spec {A : Type} (f : Nat → Option A) :
    ∀ (r a : Nat),
      (add_retry_go f a r).2 ≤ a + (r - 1) ∧
      ((add_retry_go f a r).1 = none →
        (add_retry_go f a r).2 = a + (r - 1) ∧
          ∀ i, a ≤ i → i < a + (r - 1) → f i = none) ∧
      ((∀ i, a ≤ i → i < a + (r - 1) → f i = none) →
        (add_retry_go f a r).1 = none) := by
  intro r
  induction r with
  | zero =>
    intro a
    refine ⟨by simp [add_retry_go], ?_, by simp [add_retry_go]⟩
    simp only [add_retry_go]
    intro _
    exact ⟨by simp, fun i h1 h2 => by omega⟩
  | succ r ih =>
    intro a
    by_cases hr : r = 0
    · subst hr
      refine ⟨by simp [add_retry_go], ?_, by simp [add_retry_go]⟩
      simp only [add_retry_go]
      intro _
      exact ⟨by simp, fun i h1 h2 => by omega⟩
    · have h1 : 1 < r + 1 := by omega
      have hsub : a + (r + 1 - 1) = a + r := by omega
      cases hf : f a with
      | some v =>
        have hgo : add_retry_go f a (r + 1) = (some v, a + 1) := by
          simp [add_retry_go, h1, hr, hf]
        rw [hgo, hsub]
        refine ⟨by simp; omega, by simp, ?_⟩
        intro hall
        have := hall a (Nat.le_refl a) (by omega)
        rw [hf] at this
        exact absurd this (by simp)
      | none =>
        have hgo : add_retry_go f a (r + 1) = add_retry_go f (a + 1) r := by
          simp [add_retry_go, h1, hr, hf]
        have hih := ih (a + 1)
        have hb : a + 1 + (r - 1) = a + r := by omega
        rw [hgo, hsub]
        refine ⟨?_, ?_, ?_⟩
        · have := hih.1
          omega
        · intro hnone
          have h2 := hih.2.1 hnone
          refine ⟨by omega, ?_⟩
          intro i hai hir
          by_cases hia : i = a
          · subst hia; exact hf
          · exact h2.2 i (by omega) (by omega)
        · intro hall
          exact hih.2.2 (fun i h1i h2i => hall i (by omega) (by omega))

theorem mk_update_set_self (d : Val) : mk_update_set d d = [] := by
  have h : ∀ ps : List (List String),
      List.filter (fun np => ps.all (fun op => !(getPath d np == getPath d op))) ps = [] := by
    intro ps
    apply List.filter_eq_nil_iff.mpr
    intro p hp
    intro hall
    have h2 := (List.all_eq_true.mp hall) p hp
    simp at h2
  unfold mk_update_set
  dsimp only
  rw [h]
  rfl

theorem setField_lookup_same (fs : List (String × Val)) (k : String) (v : Val) :
    (setField fs k v).lookup k = some v := by
  induction fs with
  | nil => simp [setField, List.lookup]
  | cons p rest ih =>
    obtain ⟨k2, w⟩ := p
    by_cases h : k2 = k
    · subst h; simp [setField, List.lookup]
    · simp only [setField, if_neg h, List.lookup]
      have : (k == k2) = false := by
        simp [beq_eq_false_iff_ne]
        exact fun hk => h hk.symm
      rw [this]
      exact ih

theorem setField_lookup_other (fs : List (String × Val)) (k k2 : String) (v : Val)
    (h : k2 ≠ k) : (setField fs k v).lookup k2 = fs.lookup k2 := by
  induction fs with
  | nil =>
    simp only [setField, List.lookup]
    have : (k2 == k) = false := by simp [beq_eq_false_iff_ne]; exact h
    rw [this]
  | cons p rest ih =>
    obtain ⟨k3, w⟩ := p
    by_cases h3 : k3 = k
    · subst h3
      simp only [setField, if_pos rfl, List.lookup]
      have : (k2 == k3) = false := by simp [beq_eq_false_iff_ne]; exact h
      rw [this]
    · simp only [setField, if_neg h3, List.lookup]
      cases hbeq : (k2 == k3) with
      | true => rfl
      | false => exact ih

theorem mergeFields_lookup_not_mem (sfs : List (String × Val)) :
    ∀ (dfs : List (String × Val)) (k : String),
      k ∉ sfs.map Prod.fst →
      (mergeFields dfs sfs).lookup k = dfs.lookup k := by
  induction sfs with
  | nil => intro dfs k _; rfl
  | cons p rest ih =>
    intro dfs k hk
    obtain ⟨k0, sv0⟩ := p
    simp only [List.map_cons, List.mem_cons] at hk
    push_neg at hk
    simp only [mergeFields]
    rw [ih _ k hk.2]
    exact setField_lookup_other dfs k0 k _ hk.1

theorem mergeFields_lookup_mem (sfs : List (String × Val)) :
    ∀ (dfs : List (String × Val)) (k : String) (sv : Val),
      (sfs.map Prod.fst).Nodup →
      sfs.lookup k = some sv →
      (mergeFields dfs sfs).lookup k = some (mergeValue (dfs.lookup k) sv) := by
  induction sfs with
  | nil => intro dfs k sv _ h; simp [List.lookup] at h
  | cons p rest ih =>
    intro dfs k sv hnd hl
    obtain ⟨k0, sv0⟩ := p
    simp only [List.map_cons, List.nodup_cons] at hnd
    by_cases hk : k = k0
    · subst hk
      simp only [List.lookup, beq_self_eq_true] at hl
      cases hl
      simp only [mergeFields]
      rw [mergeFields_lookup_not_mem rest _ k hnd.1]
      exact setField_lookup_same dfs k _
    · have hbeq : (k == k0) = false := by simp [beq_eq_false_iff_ne]; exact hk
      simp only [List.lookup, hbeq] at hl
      simp only [mergeFields]
      rw [ih _ k sv hnd.2 hl, setField_lookup_other dfs k0 k _ hk]

theorem mergeValue_none (sv : Val) : mergeValue none sv = sv := by
  cases sv <;> rfl

theorem mergeValue_eq (ov : Option Val) (sv : Val) :
    mergeValue ov sv =
      match customMerge ov sv with
      | some r => r
      | none =>
        match ov, sv with
        | some (Val.vobj dfs), Val.vobj sfs => Val.vobj (mergeFields dfs sfs)
        | some (Val.varr ds), Val.varr ss => Val.varr (mergeArr ds ss)
        | _, _ => sv := by
  cases ov with
  | none => cases sv <;> rfl
  | some w =>
    cases w with
    | vnull => cases sv <;> rfl
    | vbool b => cases sv <;> rfl
    | vnum n => cases sv <;> rfl
    | vobj ws => cases sv <;> rfl
    | vstr s =>
      cases sv with
      | vstr s2 =>
        obtain ⟨chars⟩ := s2
        cases chars with
        | nil => rfl
        | cons c cs => rfl
      | vnull => rfl
      | vbool b => rfl
      | vnum n => rfl
      | varr ss => rfl
      | vobj ss => rfl
    | varr ws =>
      cases sv with
      | varr ss => cases ss <;> rfl
      | vnull => rfl
      | vbool b => rfl
      | vnum n => rfl
      | vstr s2 => rfl
      | vobj ss => rfl

theorem mergeValue_default (ov : Option Val) (sv : Val)
    (hc : customMerge ov sv = none)
    (hobj : ∀ a b, ov = some (Val.vobj a) → sv = Val.vobj b → False)
    (harr : ∀ a b, ov = some (Val.varr a) → sv = Val.varr b → False) :
    mergeValue ov sv = sv := by
  rw [mergeValue_eq, hc]
  cases ov with
  | none => cases sv <;> rfl
  | some w =>
    cases w <;> cases sv <;>
      first
        | rfl
        | exact (hobj _ _ rfl rfl).elim
        | exact (harr _ _ rfl rfl).elim

theorem mergeArr_length (ds ss : List Val) :
    (mergeArr ds ss).length = max ds.length ss.length := by
  induction ds generalizing ss with
  | nil =>
    induction ss with
    | nil => rfl
    | cons s ss ih2 => simp [mergeArr, ih2]
  | cons d ds ih =>
    cases ss with
    | nil => simp [mergeArr]
    | cons s ss => simp [mergeArr, ih]; omega

theorem mergeArr_tail_kept (ds ss : List Val) :
    ∀ i, ss.length ≤ i → (mergeArr ds ss).get? i = ds.get? i := by
  induction ds generalizing ss with
  | nil =>
    intro i hi
    cases ss with
    | nil => rfl
    | cons s ss =>
      simp only [List.length_cons] at hi
      have : (mergeArr [] (s :: ss)).length = ss.length + 1 := by
        rw [mergeArr_length]; simp
      rw [List.get?_eq_none.mpr (by omega), List.get?_eq_none.mpr (by simp)]
  | cons d ds ih =>
    intro i hi
    cases ss with
    | nil => rfl
    | cons s ss =>
      simp only [List.length_cons] at hi
      cases i with
      | zero => omega
      | succ i =>
        simp only [mergeArr, List.get?_cons_succ]
        exact ih ss i (by omega)

/-!
## Claim theorems
-/

/-- C1: for an envelope whose body lacks both a non-empty-string
`pipeline.id` and a non-empty-string `run.url`, the claim says state
synthesis fails by raising `NO_THREAD_ID`.  The source instead constructs
the `NoThreadIdError` without throwing it: `mk_thread_id` returns
`undefined`, and `mk_state` proceeds to the `kai_state` schema assertion,
so the failure it surfaces is a validation error, never `noThreadId`. -/
theorem C1_noThreadId_never_raised :
    mk_thread_id ext0 mEmpty = none ∧
    mk_state ext0 mEmpty = Except.error HandlerErr.validation ∧
    HandlerErr.validation ≠ HandlerErr.noThreadId :=
  ⟨rfl, rfl, by decide⟩

/-- C2 (counterexample): with every attempt failing, the retry loop of
`Artifacts.add` gives up after 29 attempts, not after the 30 attempts the
claim states. -/
theorem C2_retry_counterexample :
    add_retry (fun _ => (none : Option Nat)) = (none, 29) ∧ (29 : Nat) ≠ 30 :=
  ⟨rfl, by decide⟩

/-- C2 (amended): the read-modify-write loop of `Artifacts.add` performs
at most 29 attempts; it raises the final `All attempts failed` error
exactly when the first 29 attempts all fail, and in that case exactly 29
attempts were made. -/
theorem C2_retry_loop_attempts {A : Type} (f : Nat → Option A) :
    (add_retry f).2 ≤ 29 ∧
    ((add_retry f).1 = none ↔ ∀ i, i < 29 → f i = none) ∧
    ((add_retry f).1 = none → (add_retry f).2 = 29) := by
  have h := add_retry_go_spec f 30 0
  simp only [add_retry] at *
  refine ⟨by have := h.1; omega, ⟨?_, ?_⟩, ?_⟩
  · intro hnone i hi
    exact (h.2.1 hnone).2 i (by omega) (by omega)
  · intro hall
    exact h.2.2 (fun i h1 h2 => hall i (by omega))
  · intro hnone
    have := (h.2.1 hnone).1
    omega

/-- C2 (witness): the amended bound evaluated on the always-failing
oracle. -/
theorem C2_retry_loop_witness :
    (add_retry (fun _ => (none : Option Nat))).1 = none ∧
    (add_retry (fun _ => (none : Option Nat))).2 = 29 := by
  have h := C2_retry_loop_attempts (fun _ => (none : Option Nat))
  have hnone := h.2.1.mpr (fun i _ => rfl)
  exact ⟨hnone, h.2.2 hnone⟩

/-- C3 (counterexample): `mk_update_set` is not the set of leaf paths
whose proposal value differs from the persisted value at the same path.
With `present = (a:1, b:2)` and `newdata = (a:2, b:2)` the path `a`
changed, yet the source returns the empty update set, because the new
value of `a` equals the persisted value at the other path `b` and
`_.differenceWith` compares across paths. -/
theorem C3_update_set_counterexample :
    mk_update_set presC3 newC3 = [] ∧
    mk_update_set_claim presC3 newC3 = [(["a"], some (Val.vnum 2))] ∧
    mk_update_set presC3 newC3 ≠ mk_update_set_claim presC3 newC3 :=
  ⟨rfl, rfl, by decide⟩

/-- C3 (amended): a proposal leaf path (arrays packed whole, paths
resolving to null or undefined dropped) survives into `mk_update_set`
exactly when its proposal value differs from the persisted value at every
persisted leaf path.  In particular a path whose proposal value equals
the persisted value at that same path is dropped, and null or undefined
proposal paths are dropped; but a changed path can also be dropped by a
value collision with a different persisted path. -/
theorem C3_update_set_characterization (present newdata : Val) (p : List String) :
    (p ∈ (mk_update_set present newdata).map Prod.fst ↔
      (p ∈ drop_empty_paths (paths_mongodb_pack_array newdata) newdata ∧
       ∀ q ∈ drop_empty_paths (paths_mongodb_pack_array present) present,
         getPath newdata p ≠ getPath present q)) ∧
    (getPath newdata p = getPath present p →
      p ∈ drop_empty_paths (paths_mongodb_pack_array present) present →
      p ∉ (mk_update_set present newdata).map Prod.fst) ∧
    ((getPath newdata p = none ∨ getPath newdata p = some Val.vnull) →
      p ∉ (mk_update_set present newdata).map Prod.fst) := by
  have hchar : p ∈ (mk_update_set present newdata).map Prod.fst ↔
      (p ∈ drop_empty_paths (paths_mongodb_pack_array newdata) newdata ∧
       ∀ q ∈ drop_empty_paths (paths_mongodb_pack_array present) present,
         getPath newdata p ≠ getPath present q) := by
    unfold mk_update_set
    dsimp only
    rw [List.map_map]
    have hid : (Prod.fst ∘ fun q : List String => (q, getPath newdata q)) =
        fun q : List String => q := rfl
    rw [hid, List.map_id']
    rw [List.mem_filter]
    constructor
    · rintro ⟨hmem, hall⟩
      refine ⟨hmem, ?_⟩
      intro q hq
      have := List.all_eq_true.mp hall q hq
      simpa using this
    · rintro ⟨hmem, hall⟩
      refine ⟨hmem, ?_⟩
      apply List.all_eq_true.mpr
      intro q hq
      simpa using hall q hq
  refine ⟨hchar, ?_, ?_⟩
  · intro heq hq hmem
    exact (hchar.mp hmem).2 p hq (by rw [heq])
  · intro h0 hmem
    have hmem2 := (hchar.mp hmem).1
    unfold drop_empty_paths at hmem2
    have hpred := (List.mem_filter.mp hmem2).2
    rcases h0 with h | h <;> rw [h] at hpred <;> simp at hpred

/-- C3 (witness): the surviving claim parts evaluated at the fixture: the
unchanged path `b` is dropped from the update set. -/
theorem C3_update_set_witness :
    ["b"] ∉ (mk_update_set presC3 newC3).map Prod.fst :=
  (C3_update_set_characterization presC3 newC3 ["b"]).2.1 rfl (by decide)

/-- C8 (counterexample): when both sides are non-empty arrays the merge
does not overwrite the destination with the new value: lodash merges
arrays index by index, so merging `f: (9)` over `f: (1, 2, 3)` yields
`f: (9, 2, 3)`, not `f: (9)`. -/
theorem C8_merge_counterexample :
    mergeWithCM (Val.vobj [("f", Val.varr [Val.vnum 1, Val.vnum 2, Val.vnum 3])])
        (Val.vobj [("f", Val.varr [Val.vnum 9])]) =
      Val.vobj [("f", Val.varr [Val.vnum 9, Val.vnum 2, Val.vnum 3])] ∧
    Val.varr [Val.vnum 9, Val.vnum 2, Val.vnum 3] ≠ Val.varr [Val.vnum 9] :=
  ⟨rfl, by decide⟩

/-- C8 (amended): the field rules of the sub-record merge
`_.mergeWith(dst, src, customMerge)`.  For a key of the source record
(with source keys distinct): the merged field is `mergeValue` of the two
field values; a missing destination field is assigned the new value; when
both sides are arrays and the new array is empty the destination is kept;
when both sides are strings and the new string is empty the destination
is kept; plain objects merge recursively; two non-empty arrays merge
index by index, keeping destination elements beyond the new length; in
every remaining case the new value overwrites the destination. -/
theorem C8_merge_rules (dfs sfs : List (String × Val)) (k : String) (sv : Val)
    (hnd : (sfs.map Prod.fst).Nodup) (hk : sfs.lookup k = some sv) :
    getKey (mergeWithCM (Val.vobj dfs) (Val.vobj sfs)) k
      = some (mergeValue (dfs.lookup k) sv) ∧
    (dfs.lookup k = none → mergeValue (dfs.lookup k) sv = sv) ∧
    (∀ ds, dfs.lookup k = some (Val.varr ds) → sv = Val.varr [] →
      mergeValue (dfs.lookup k) sv = Val.varr ds) ∧
    (∀ s, dfs.lookup k = some (Val.vstr s) → sv = Val.vstr "" →
      mergeValue (dfs.lookup k) sv = Val.vstr s) ∧
    (∀ dgs sgs, dfs.lookup k = some (Val.vobj dgs) → sv = Val.vobj sgs →
      mergeValue (dfs.lookup k) sv = Val.vobj (mergeFields dgs sgs)) ∧
    (∀ ds ss, dfs.lookup k = some (Val.varr ds) → sv = Val.varr ss → ss ≠ [] →
      mergeValue (dfs.lookup k) sv = Val.varr (mergeArr ds ss) ∧
      (mergeArr ds ss).length = max ds.length ss.length ∧
      (∀ i, ss.length ≤ i → (mergeArr ds ss).get? i = ds.get? i)) ∧
    (∀ w, dfs.lookup k = some w → customMerge (some w) sv = none →
      (¬ ∃ ws, w = Val.vobj ws ∧ ∃ ss, sv = Val.vobj ss) →
      (¬ ∃ ws, w = Val.varr ws ∧ ∃ ss, sv = Val.varr ss) →
      mergeValue (dfs.lookup k) sv = sv) := by
  refine ⟨?_, ?_, ?_, ?_, ?_, ?_, ?_⟩
  · show (mergeFields dfs sfs).lookup k = some (mergeValue (dfs.lookup k) sv)
    exact mergeFields_lookup_mem sfs dfs k sv hnd hk
  · intro h; rw [h]; exact mergeValue_none sv
  · intro ds h hsv; rw [h, hsv]; rfl
  · intro s h hsv; rw [h, hsv]; rfl
  · intro dgs sgs h hsv; rw [h, hsv]; rfl
  · intro ds ss h hsv hne
    cases ss with
    | nil => exact absurd rfl hne
    | cons s0 ss0 =>
      rw [h, hsv]
      exact ⟨rfl, mergeArr_length _ _, mergeArr_tail_kept _ _⟩
  · intro w h hc hno hna
    rw [h]
    apply mergeValue_default _ _ hc
    · intro a b hwa hsv
      cases hwa
      exact hno ⟨a, rfl, b, hsv⟩
    · intro a b hwa hsv
      cases hwa
      exact hna ⟨a, rfl, b, hsv⟩

/-- C8 (witness): the keep-destination rules evaluated at concrete
records: an empty new string keeps the destination string. -/
theorem C8_merge_witness :
    getKey (mergeWithCM (Val.vobj [("f", Val.vstr "x")]) (Val.vobj [("f", Val.vstr "")])) "f"
      = some (Val.vstr "x") := by
  have h := C8_merge_rules [("f", Val.vstr "x")] [("f", Val.vstr "")] "f" (Val.vstr "")
    (by decide) rfl
  rw [h.1, h.2.2.2.1 "x" rfl rfl]

theorem findOneAndUpdate_found (flt : List (List String × Val)) (u : UpdateDoc)
    (hnoop : ∀ d, applyUpdate false d u = d) :
    ∀ (store : List Val) (d : Val),
      store.find? (fun x => matchesFilter x flt) = some d →
      findOneAndUpdate store flt u true = (some d, store) := by
  intro store
  induction store with
  | nil => intro d h; simp [List.find?] at h
  | cons d0 rest ih =>
    intro d h
    rw [List.find?_cons] at h
    cases hm : matchesFilter d0 flt with
    | true =>
      rw [hm] at h
      simp only at h
      cases h
      simp [findOneAndUpdate, hm, hnoop]
    | false =>
      rw [hm] at h
      simp only at h
      have := ih d h
      simp [findOneAndUpdate, hm, this]

theorem findOneAndUpdate_notfound (flt : List (List String × Val)) (u : UpdateDoc) :
    ∀ store : List Val,
      store.find? (fun x => matchesFilter x flt) = none →
      findOneAndUpdate store flt u true =
        (some (applyUpdate true (seedFromFilter flt) u),
         store ++ [applyUpdate true (seedFromFilter flt) u]) := by
  intro store
  induction store with
  | nil => intro _; simp [findOneAndUpdate]
  | cons d0 rest ih =>
    intro h
    rw [List.find?_cons] at h
    cases hm : matchesFilter d0 flt with
    | true => rw [hm] at h; simp at h
    | false =>
      rw [hm] at h
      simp only [findOneAndUpdate, hm, Bool.false_eq_true, if_false]
      rw [ih h]
      simp

/-- C10: `Artifacts.findOrCreate(type, aid)` leaves an existing document
for `(type, aid)` entirely unchanged and returns it as stored (its update
carries only `$setOnInsert`); only a creating call produces a document,
and that document has `_version = 1`. -/
theorem C10_findOrCreate_frame (t a : String) :
    (∀ (store : List Val) (d : Val),
      firstMatch store [(["type"], Val.vstr t), (["aid"], Val.vstr a)] = some d →
      findOrCreate t a store = (d, store)) ∧
    (∀ store : List Val,
      firstMatch store [(["type"], Val.vstr t), (["aid"], Val.vstr a)] = none →
      findOrCreate t a store =
        (Val.vobj [("type", Val.vstr t), ("aid", Val.vstr a), ("_version", Val.vnum 1)],
         store ++ [Val.vobj [("type", Val.vstr t), ("aid", Val.vstr a), ("_version", Val.vnum 1)]])) := by
  constructor
  · intro store d h
    have hfind := findOneAndUpdate_found
      [(["type"], Val.vstr t), (["aid"], Val.vstr a)]
      { setOnInsert := [(["type"], some (Val.vstr t)),
                        (["aid"], some (Val.vstr a)),
                        (["_version"], some (Val.vnum 1))] }
      (fun d2 => rfl) store d h
    unfold findOrCreate
    rw [hfind]
    rfl
  · intro store h
    have hfind := findOneAndUpdate_notfound
      [(["type"], Val.vstr t), (["aid"], Val.vstr a)]
      { setOnInsert := [(["type"], some (Val.vstr t)),
                        (["aid"], some (Val.vstr a)),
                        (["_version"], some (Val.vnum 1))] }
      store h
    unfold findOrCreate
    rw [hfind]
    rfl

theorem groupByKey_mem {A : Type} (key : A → String) (l : List A) (k : String)
    (g : List A) :
    (k, g) ∈ groupByKey key l ↔
      k ∈ (l.map key).dedup ∧ g = l.filter (fun e => key e = k) := by
  unfold groupByKey
  rw [List.mem_map]
  constructor
  · rintro ⟨k2, hk2, heq⟩
    rw [Prod.mk.injEq] at heq
    obtain ⟨h1, h2⟩ := heq
    subst h1
    exact ⟨hk2, h2.symm⟩
  · rintro ⟨hk, rfl⟩
    exact ⟨k, hk, rfl⟩

theorem mem_insertDesc (a x : Val) (l : List Val) :
    x ∈ insertDesc a l ↔ x = a ∨ x ∈ l := by
  induction l with
  | nil => simp [insertDesc]
  | cons b t ih =>
    simp only [insertDesc]
    by_cases hg : tsGe a b = true
    · rw [if_pos hg]; simp
    · rw [if_neg hg]
      simp only [List.mem_cons, ih]
      tauto

theorem mem_orderByTsDesc (x : Val) (l : List Val) :
    x ∈ orderByTsDesc l ↔ x ∈ l := by
  induction l with
  | nil => simp [orderByTsDesc]
  | cons a t ih =>
    show x ∈ insertDesc a (orderByTsDesc t) ↔ _
    rw [mem_insertDesc]
    simp [ih]

theorem tsGe_iff (a b : Val) (x y : Int)
    (hx : tsOf a = some (Val.vnum x)) (hy : tsOf b = some (Val.vnum y)) :
    tsGe a b = true ↔ y ≤ x := by
  simp [tsGe, hx, hy]

theorem head_orderByTsDesc_max (l : List Val)
    (hnum : ∀ e ∈ l, ∃ n : Int, tsOf e = some (Val.vnum n)) :
    ∀ m, (orderByTsDesc l).head? = some m →
      m ∈ l ∧ ∀ e ∈ l, tsInt e ≤ tsInt m := by
  induction l with
  | nil => intro m hm; simp [orderByTsDesc] at hm
  | cons a t ih =>
    intro m hm
    have hmem : m ∈ orderByTsDesc (a :: t) := by
      cases hs : orderByTsDesc (a :: t) with
      | nil => rw [hs] at hm; simp at hm
      | cons b s2 => rw [hs] at hm; simp at hm; simp [hm]
    have hml : m ∈ a :: t := (mem_orderByTsDesc m _).mp hmem
    change (insertDesc a (orderByTsDesc t)).head? = some m at hm
    cases hs : orderByTsDesc t with
    | nil =>
      have ht : t = [] := by
        cases t with
        | nil => rfl
        | cons b t2 =>
          have : b ∈ orderByTsDesc (b :: t2) :=
            (mem_orderByTsDesc b _).mpr (by simp)
          rw [hs] at this
          simp at this
      subst ht
      rw [hs] at hm
      simp only [insertDesc, List.head?] at hm
      cases hm
      exact ⟨by simp, by intro e he; simp at he; subst he; exact le_refl _⟩
    | cons b s2 =>
      rw [hs] at hm
      have hbt : b ∈ t := by
        have : b ∈ orderByTsDesc t := by rw [hs]; simp
        exact (mem_orderByTsDesc b t).mp this
      have hbmax := ih (fun e he => hnum e (by simp [he])) b (by rw [hs]; rfl)
      obtain ⟨xa, hxa⟩ := hnum a (by simp)
      obtain ⟨xb, hxb⟩ := hnum b (by simp [hbt])
      simp only [insertDesc] at hm
      by_cases hg : tsGe a b = true
      · rw [if_pos hg] at hm
        simp only [List.head?] at hm
        have hma : a = m := Option.some.inj hm
        subst hma
        refine ⟨by simp, ?_⟩
        intro e he
        rcases List.mem_cons.mp he with rfl | het
        · exact le_refl _
        · have h1 : tsInt e ≤ tsInt b := hbmax.2 e het
          have h2 : tsInt b ≤ tsInt a := by
            have hle := (tsGe_iff a b xa xb hxa hxb).mp hg
            simp only [tsInt, hxa, hxb]
            exact hle
          exact le_trans h1 h2
      · rw [if_neg hg] at hm
        simp only [List.head?] at hm
        have hmb : b = m := Option.some.inj hm
        subst hmb
        refine ⟨by simp [hbt], ?_⟩
        intro e he
        rcases List.mem_cons.mp he with rfl | het
        · have hnle : ¬ (xb ≤ xa) := fun hle => hg ((tsGe_iff e b xa xb hxa hxb).mpr hle)
          have hle : xa ≤ xb := le_of_not_le hnle
          simp only [tsInt, hxa, hxb]
          exact hle
        · exact hbmax.2 e het

theorem recent_for_each_thread_spec (l : List Val)
    (e : Val) (he : e ∈ recent_for_each_thread l) :
    e ∈ l ∧
    ((∀ x ∈ l, ∃ n : Int, tsOf x = some (Val.vnum n)) →
      ∀ e2 ∈ l, threadKey e2 = threadKey e → tsInt e2 ≤ tsInt e) := by
  unfold recent_for_each_thread at he
  rw [List.mem_filterMap] at he
  obtain ⟨g, hg, hhead⟩ := he
  unfold states_for_same_thread at hg
  rw [List.mem_map] at hg
  obtain ⟨⟨t, g2⟩, hkg, hg2⟩ := hg
  simp only at hg2
  subst hg2
  have hspec := (groupByKey_mem threadKey l t g2).mp hkg
  obtain ⟨_, hfil⟩ := hspec
  subst hfil
  have hsub : ∀ x, x ∈ l.filter (fun e => decide (threadKey e = t)) → x ∈ l := by
    intro x hx; exact (List.mem_filter.mp hx).1
  have hein : e ∈ l.filter (fun e => decide (threadKey e = t)) := by
    have hes : e ∈ orderByTsDesc (l.filter (fun e => decide (threadKey e = t))) := by
      cases hs : orderByTsDesc (l.filter (fun e => decide (threadKey e = t))) with
      | nil => rw [hs] at hhead; simp at hhead
      | cons b s2 =>
        rw [hs] at hhead
        simp only [List.head?] at hhead
        have hbe : b = e := Option.some.inj hhead
        subst hbe
        simp
    exact (mem_orderByTsDesc e _).mp hes
  have hekey : threadKey e = t := by
    have := (List.mem_filter.mp hein).2
    simpa using this
  refine ⟨hsub e hein, ?_⟩
  intro hnum e2 he2 hkey
  have hnumg : ∀ x ∈ l.filter (fun e => decide (threadKey e = t)),
      ∃ n : Int, tsOf x = some (Val.vnum n) :=
    fun x hx => hnum x (hsub x hx)
  have hmax := head_orderByTsDesc_max _ hnumg e hhead
  have he2in : e2 ∈ l.filter (fun e => decide (threadKey e = t)) := by
    rw [List.mem_filter]
    exact ⟨he2, by simp [hkey, hekey]⟩
  exact hmax.2 e2 he2in

theorem foldl_getKey_none (ps : List String) :
    ps.foldl (fun acc k => acc.bind (fun v => getKey v k)) (none : Option Val) = none := by
  induction ps with
  | nil => rfl
  | cons k ks ih =>
    rw [List.foldl_cons]
    exact ih

theorem getPath_cons_non_obj {d : Val} {p : String} (hd : getKey d p = none)
    (ps : List String) : getPath d (p :: ps) = none := by
  unfold getPath
  rw [List.foldl_cons]
  have hstep : (some d).bind (fun v => getKey v p) = none := by
    simp [hd]
  rw [hstep]
  exact foldl_getKey_none ps

theorem matchesFilter_head_vobj (d : Val) (p : String) (ps : List String) (v : Val)
    (rest : List (List String × Val))
    (h : matchesFilter d ((p :: ps, v) :: rest) = true) :
    ∃ fs, d = Val.vobj fs := by
  unfold matchesFilter at h
  have h1 := (List.all_eq_true.mp h) (p :: ps, v) (by simp)
  simp only [beq_iff_eq] at h1
  cases d with
  | vobj fs => exact ⟨fs, rfl⟩
  | vnull => rw [getPath_cons_non_obj (by rfl) ps] at h1; exact Option.noConfusion h1
  | vbool b => rw [getPath_cons_non_obj (by rfl) ps] at h1; exact Option.noConfusion h1
  | vnum n => rw [getPath_cons_non_obj (by rfl) ps] at h1; exact Option.noConfusion h1
  | vstr s => rw [getPath_cons_non_obj (by rfl) ps] at h1; exact Option.noConfusion h1
  | varr l => rw [getPath_cons_non_obj (by rfl) ps] at h1; exact Option.noConfusion h1

theorem findOrCreate_vobj (t a : String) :
    ∀ store : List Val, ∃ fs, (findOrCreate t a store).1 = Val.vobj fs := by
  intro store
  induction store with
  | nil =>
    exact ⟨[("type", Val.vstr t), ("aid", Val.vstr a), ("_version", Val.vnum 1)], rfl⟩
  | cons d rest ih =>
    unfold findOrCreate findOneAndUpdate
    by_cases hm : matchesFilter d [(["type"], Val.vstr t), (["aid"], Val.vstr a)] = true
    · rw [if_pos hm]
      obtain ⟨fs, hfs⟩ := matchesFilter_head_vobj d "type" [] (Val.vstr t) _ hm
      exact ⟨fs, hfs⟩
    · rw [if_neg hm]
      unfold findOrCreate at ih
      exact ih

theorem loader_step_exited (bf : Nat → Bool) (st : LoaderState) (m : LoaderMsg)
    (h : st.exited = true) : loader_step bf st m = st := by
  unfold loader_step
  rw [h]
  rfl

theorem loader_run_exited (bf : Nat → Bool) (msgs : List LoaderMsg) :
    ∀ st : LoaderState, st.exited = true → loader_run bf st msgs = st := by
  induction msgs with
  | nil => intro st _; rfl
  | cons m rest ih =>
    intro st h
    show loader_run bf (loader_step bf st m) rest = st
    rw [loader_step_exited bf st m h]
    exact ih st h

theorem loader_step_committed_mono (bf : Nat → Bool) (st : LoaderState) (m : LoaderMsg)
    (x : Nat) (hx : x ∈ st.committed) : x ∈ (loader_step bf st m).committed := by
  unfold loader_step
  by_cases he : st.exited = true
  · rw [he]; exact hx
  · rw [Bool.not_eq_true] at he
    rw [he]
    by_cases hv : m.valid = true
    · simp only [hv, Bool.not_true, Bool.false_eq_true, if_false]
      split
      · exact hx
      · split
        · exact hx
        · simp only [List.mem_append]
          exact Or.inl hx
    · rw [Bool.not_eq_true] at hv
      simp only [hv, Bool.not_false, if_true]
      exact List.mem_append.mpr (Or.inl hx)

theorem loader_run_committed_mono (bf : Nat → Bool) (msgs : List LoaderMsg) :
    ∀ (st : LoaderState) (x : Nat), x ∈ st.committed →
      x ∈ (loader_run bf st msgs).committed := by
  induction msgs with
  | nil => intro st x hx; exact hx
  | cons m rest ih =>
    intro st x hx
    exact ih _ x (loader_step_committed_mono bf st m x hx)

theorem loader_step_fresh (bf : Nat → Bool) (st : LoaderState) (m : LoaderMsg)
    (id : Nat) (hf : LoaderFresh id st) (hm : m.valid = true → m.entryId ≠ id) :
    LoaderFresh id (loader_step bf st m) := by
  obtain ⟨h1, h2, h3, h4⟩ := hf
  unfold loader_step
  by_cases he : st.exited = true
  · rw [he]; exact ⟨h1, h2, h3, h4⟩
  · rw [Bool.not_eq_true] at he
    rw [he]
    by_cases hv : m.valid = true
    · have hid := hm hv
      simp only [hv, Bool.not_true, Bool.false_eq_true, if_false]
      have h1b : id ∉ st.fqEntries ++ [m.entryId] := by
        simp only [List.mem_append, List.mem_singleton]
        rintro (h | h)
        · exact h1 h
        · exact hid h.symm
      have h2b : id ∉ (st.bulkUpserts ++ m.upserts.map (fun sz => (m.entryId, sz))).map
          Prod.fst := by
        simp only [List.map_append, List.mem_append, List.map_map]
        rintro (h | h)
        · exact h2 h
        · rw [List.mem_map] at h
          obtain ⟨sz, _, hsz⟩ := h
          exact hid hsz
      have h4b : ∀ call ∈ st.bulkCalls ++
          [st.bulkUpserts ++ m.upserts.map (fun sz => (m.entryId, sz))],
          ∀ u ∈ call, u.1 ≠ id := by
        intro call hcall u hu
        rw [List.mem_append, List.mem_singleton] at hcall
        cases hcall with
        | inl hc => exact h4 call hc u hu
        | inr hc =>
          subst hc
          rw [List.mem_append] at hu
          cases hu with
          | inl hu2 =>
            intro heq
            exact h2 (List.mem_map.mpr ⟨u, hu2, heq⟩)
          | inr hu2 =>
            rw [List.mem_map] at hu2
            obtain ⟨sz, _, hsz⟩ := hu2
            rw [← hsz]
            exact hid
      split
      · exact ⟨h1b, h2b, h3, h4⟩
      · split
        · refine ⟨h1b, h2b, ?_, h4b⟩
          simp only [List.mem_append]
          rintro (h | h)
          · exact h3 h
          · exact h1b (List.mem_append.mpr h)
        · exact ⟨by simp, by simp, h3, h4b⟩
    · rw [Bool.not_eq_true] at hv
      simp only [hv, Bool.not_false, if_true]
      exact ⟨h1, h2, h3, h4⟩

theorem loader_run_fresh (bf : Nat → Bool) (msgs : List LoaderMsg) :
    ∀ (st : LoaderState) (id : Nat), LoaderFresh id st →
      (∀ m ∈ msgs, m.valid = true → m.entryId ≠ id) →
      LoaderFresh id (loader_run bf st msgs) := by
  induction msgs with
  | nil => intro st id hf _; exact hf
  | cons m rest ih =>
    intro st id hf hall
    exact ih _ id
      (loader_step_fresh bf st m id hf (hall m (by simp)))
      (fun m2 hm2 => hall m2 (by simp [hm2]))

/-- C9: a popped file-queue entry whose envelope fails the `fq_msg`
schema validation is committed at once and the loop moves on: nothing
else of the loader state changes, and across a whole run the entry ends
up committed, never rolled back, never in any bulk call, and never
retried (its id joins no in-flight structure). -/
theorem C9_invalid_entry_committed (bf : Nat → Bool) :
    (∀ (st : LoaderState) (m : LoaderMsg), st.exited = false → m.valid = false →
      loader_step bf st m = { st with committed := st.committed ++ [m.entryId] }) ∧
    (∀ (init : LoaderState) (msgs : List LoaderMsg) (m : LoaderMsg),
      m ∈ msgs → m.valid = false →
      (∀ m2 ∈ msgs, m2.valid = true → m2.entryId ≠ m.entryId) →
      LoaderFresh m.entryId init →
      (loader_run bf init msgs).exited = false →
      m.entryId ∈ (loader_run bf init msgs).committed ∧
        LoaderFresh m.entryId (loader_run bf init msgs)) := by
  constructor
  · intro st m hex hv
    unfold loader_step
    rw [hex, hv]
    rfl
  · intro init msgs
    induction msgs generalizing init with
    | nil => intro m hm; simp at hm
    | cons m0 rest ih =>
      intro m hm hv huniq hfresh hexfin
      have hinit : init.exited = false := by
        by_contra hcon
        rw [Bool.not_eq_false] at hcon
        rw [show loader_run bf init (m0 :: rest) = init from
          loader_run_exited bf _ init hcon, hcon] at hexfin
        exact Bool.noConfusion hexfin
      rcases List.mem_cons.mp hm with h0 | hmrest
      · subst h0
        have hstep : loader_step bf init m =
            { init with committed := init.committed ++ [m.entryId] } := by
          unfold loader_step
          rw [hinit, hv]
          rfl
        have hrun : loader_run bf init (m :: rest) =
            loader_run bf (loader_step bf init m) rest := rfl
        rw [hrun, hstep] at hexfin ⊢
        constructor
        · apply loader_run_committed_mono
          simp
        · exact loader_run_fresh bf rest _ m.entryId hfresh
            (fun m2 hm2 hv2 => huniq m2 (by simp [hm2]) hv2)
      · have hfresh2 : LoaderFresh m.entryId (loader_step bf init m0) :=
          loader_step_fresh bf init m0 m.entryId hfresh
            (fun hv0 => huniq m0 (by simp) hv0)
        exact ih (loader_step bf init m0) m hmrest hv
          (fun m2 hm2 => huniq m2 (by simp [hm2])) hfresh2 hexfin

/-- C9 (witness): the commit-and-continue path evaluated on a concrete
run: an invalid entry (id 9) popped after a valid one is committed and
ends up in no bulk call and not rolled back. -/
theorem C9_invalid_entry_witness :
    loader_step (fun _ => false) {} (LoaderMsg.mk false 300 [7] 9) =
      { ({} : LoaderState) with committed := [9] } ∧
    (9 ∈ (loader_run (fun _ => false) {}
        [LoaderMsg.mk true 100 [5] 1, LoaderMsg.mk false 300 [7] 9]).committed ∧
      LoaderFresh 9 (loader_run (fun _ => false) {}
        [LoaderMsg.mk true 100 [5] 1, LoaderMsg.mk false 300 [7] 9])) := by
  constructor
  · exact (C9_invalid_entry_committed (fun _ => false)).1 {}
      (LoaderMsg.mk false 300 [7] 9) rfl rfl
  · exact (C9_invalid_entry_committed (fun _ => false)).2 {}
      [LoaderMsg.mk true 100 [5] 1, LoaderMsg.mk false 300 [7] 9]
      (LoaderMsg.mk false 300 [7] 9)
      (by decide) rfl (by decide)
      (by refine ⟨by decide, by decide, by decide, ?_⟩; intro call hcall; simp at hcall)
      rfl

/-- C7 (counterexample): there is no idle timer.  Three valid envelopes
popped within one second followed by silence leave three upserts buffered
and produce no bulk call at all, not one call with three upserts; the
flush happens only when a fourth envelope arrives after the 3-second gap,
and that call then contains four upserts. -/
theorem C7_idle_flush_counterexample :
    (loader_run (fun _ => false) {} msgsC7).bulkCalls = [] ∧
    (loader_run (fun _ => false) {} msgsC7).bulkUpserts.length = 3 ∧
    (loader_run (fun _ => false) {} msgsC7).bulkCalls.length ≠ 1 ∧
    (loader_run (fun _ => false) {} (msgsC7 ++ [m4C7])).bulkCalls =
      [[(1, 10), (2, 10), (3, 10), (4, 10)]] :=
  ⟨rfl, rfl, by decide, rfl⟩

/-- C7 (amended): on a popped valid message the loader appends the
upserts of the message and flushes exactly when the inter-message gap
reached 3 seconds, or the batch (with the message appended) reached 100
operations, or the accumulated size reached the maximum; the flushed bulk
call contains the buffered upserts together with those of the arriving
message.  On flush success all accumulated entries commit; on flush
failure all roll back and the process exits.  Idle time alone never
flushes: without a next message the state just carries the batch
(the run is the fold of this step). -/
theorem C7_flush_condition (bf : Nat → Bool) (st : LoaderState) (m : LoaderMsg)
    (hex : st.exited = false) (hv : m.valid = true) :
    ((loader_step bf st m).bulkCalls = st.bulkCalls ↔
      (m.arrivalMs - st.prevMsgTimeMs < 3000 ∧
       (st.bulkUpserts ++ m.upserts.map (fun sz => (m.entryId, sz))).length < bulkMaxEntries ∧
       st.bulkSizeBytes + m.upserts.sum < bulkMaxSize)) ∧
    (¬ (m.arrivalMs - st.prevMsgTimeMs < 3000 ∧
        (st.bulkUpserts ++ m.upserts.map (fun sz => (m.entryId, sz))).length < bulkMaxEntries ∧
        st.bulkSizeBytes + m.upserts.sum < bulkMaxSize) →
      (loader_step bf st m).bulkCalls =
        st.bulkCalls ++ [st.bulkUpserts ++ m.upserts.map (fun sz => (m.entryId, sz))] ∧
      (bf st.bulkCalls.length = false →
        (loader_step bf st m).committed = st.committed ++ (st.fqEntries ++ [m.entryId]) ∧
        (loader_step bf st m).bulkUpserts = [] ∧
        (loader_step bf st m).exited = false) ∧
      (bf st.bulkCalls.length = true →
        (loader_step bf st m).rolledBack = st.rolledBack ++ (st.fqEntries ++ [m.entryId]) ∧
        (loader_step bf st m).exited = true)) ∧
    ((m.arrivalMs - st.prevMsgTimeMs < 3000 ∧
      (st.bulkUpserts ++ m.upserts.map (fun sz => (m.entryId, sz))).length < bulkMaxEntries ∧
      st.bulkSizeBytes + m.upserts.sum < bulkMaxSize) →
      loader_step bf st m = { st with
        prevMsgTimeMs := m.arrivalMs
        bulkUpserts := st.bulkUpserts ++ m.upserts.map (fun sz => (m.entryId, sz))
        bulkSizeBytes := st.bulkSizeBytes + m.upserts.sum
        fqEntries := st.fqEntries ++ [m.entryId] }) := by
  have hbody : loader_step bf st m =
      if m.arrivalMs - st.prevMsgTimeMs < 3000 ∧
         (st.bulkUpserts ++ m.upserts.map (fun sz => (m.entryId, sz))).length < bulkMaxEntries ∧
         st.bulkSizeBytes + m.upserts.sum < bulkMaxSize then
        { st with
          prevMsgTimeMs := m.arrivalMs
          bulkUpserts := st.bulkUpserts ++ m.upserts.map (fun sz => (m.entryId, sz))
          bulkSizeBytes := st.bulkSizeBytes + m.upserts.sum
          fqEntries := st.fqEntries ++ [m.entryId] }
      else if bf st.bulkCalls.length then
        { st with
          prevMsgTimeMs := m.arrivalMs
          bulkUpserts := st.bulkUpserts ++ m.upserts.map (fun sz => (m.entryId, sz))
          bulkSizeBytes := st.bulkSizeBytes + m.upserts.sum
          fqEntries := st.fqEntries ++ [m.entryId]
          bulkCalls := st.bulkCalls ++
            [st.bulkUpserts ++ m.upserts.map (fun sz => (m.entryId, sz))]
          rolledBack := st.rolledBack ++ (st.fqEntries ++ [m.entryId])
          exited := true }
      else
        { st with
          prevMsgTimeMs := m.arrivalMs
          bulkUpserts := []
          bulkSizeBytes := 0
          fqEntries := []
          bulkCalls := st.bulkCalls ++
            [st.bulkUpserts ++ m.upserts.map (fun sz => (m.entryId, sz))]
          committed := st.committed ++ (st.fqEntries ++ [m.entryId]) } := by
    unfold loader_step
    rw [hex, hv]
    rfl
  by_cases hc : m.arrivalMs - st.prevMsgTimeMs < 3000 ∧
      (st.bulkUpserts ++ m.upserts.map (fun sz => (m.entryId, sz))).length < bulkMaxEntries ∧
      st.bulkSizeBytes + m.upserts.sum < bulkMaxSize
  · rw [hbody, if_pos hc]
    refine ⟨⟨fun _ => hc, fun _ => rfl⟩, fun hnc => absurd hc hnc, fun _ => rfl⟩
  · rw [hbody, if_neg hc]
    have hne : ∀ x : List (Nat × Nat), st.bulkCalls ++ [x] ≠ st.bulkCalls := by
      intro x h
      have := congrArg List.length h
      simp at this
    cases hbf : bf st.bulkCalls.length with
    | true =>
      rw [if_pos rfl]
      refine ⟨⟨fun h => absurd h (hne _), fun h => absurd h hc⟩, ?_, fun h => absurd h hc⟩
      intro _
      exact ⟨rfl, fun h => Bool.noConfusion h, fun _ => ⟨rfl, rfl⟩⟩
    | false =>
      rw [if_neg (by simp)]
      refine ⟨⟨fun h => absurd h (hne _), fun h => absurd h hc⟩, ?_, fun h => absurd h hc⟩
      intro _
      exact ⟨rfl, fun _ => ⟨rfl, rfl, hex⟩, fun h => Bool.noConfusion h⟩

/-- C7 (witness): the amended flush rule evaluated at the state after the
three buffered envelopes, on the fourth envelope arriving 4 seconds
later: one bulk call is made containing all four upserts, and all four
entries commit. -/
theorem C7_flush_condition_witness :
    (loader_step (fun _ => false) stC7 m4C7).bulkCalls =
      [[(1, 10), (2, 10), (3, 10), (4, 10)]] ∧
    (loader_step (fun _ => false) stC7 m4C7).committed = [1, 2, 3, 4] := by
  have h := C7_flush_condition (fun _ => false) stC7 m4C7 rfl rfl
  have hnc : ¬ (m4C7.arrivalMs - stC7.prevMsgTimeMs < 3000 ∧
      (stC7.bulkUpserts ++ m4C7.upserts.map (fun sz => (m4C7.entryId, sz))).length <
        bulkMaxEntries ∧
      stC7.bulkSizeBytes + m4C7.upserts.sum < bulkMaxSize) := by decide
  obtain ⟨hcalls, hsucc, _⟩ := h.2.1 hnc
  constructor
  · rw [hcalls]; rfl
  · rw [(hsucc rfl).1]; rfl

/-- C4 (counterexample): re-processing the same envelope is not always
idempotent.  After the first delivery of `mC4` the conditional write
dropped the changed path `rpm_build.nvr` (its new value `y` collided with
the persisted value of `rpm_build.source`), so the second delivery of the
identical envelope computes a non-empty update set, performs one write
and bumps `_version` from 2 to 3 — the persisted document changes.  The
`states` array is nevertheless not re-appended (it stays at one entry). -/
theorem C4_idempotence_counterexample :
    addWrites (Artifacts.add ext0 mC4 store1C4) = 1 ∧
    (1 : Nat) ≠ 0 ∧
    addStore (Artifacts.add ext0 mC4 store1C4) ≠ store1C4 ∧
    (store1C4.head?.bind (fun d => getPath d ["_version"])) = some (Val.vnum 2) ∧
    ((addStore (Artifacts.add ext0 mC4 store1C4)).head?.bind
        (fun d => getPath d ["_version"])) = some (Val.vnum 3) ∧
    (store1C4.head?.map (fun d => (statesOf d).length)) = some 1 ∧
    ((addStore (Artifacts.add ext0 mC4 store1C4)).head?.map
        (fun d => (statesOf d).length)) = some 1 :=
  ⟨rfl, by decide, by decide, rfl, rfl, rfl, rfl⟩

/-- C4 (amended): re-processing an envelope never appends a second state
for an already-present `msg_id` — the handler returns the persisted
`states` array unchanged; and whenever the handler proposal coincides
with the persisted document (as it does once the document has fully
absorbed the proposal, e.g. on a third delivery), `Artifacts.add` returns
the proposal, performs no write, and leaves the store — `_version`
included — unchanged.  A second delivery may still perform one write when
the first conditional write dropped a changed path by the cross-path
value collision of `mk_update_set`. -/
theorem C4_second_delivery :
    (∀ (ext : JsExt) (m : BrokerMsg) (store : List Val) (st : Val),
      mk_state ext m = Except.ok st →
      (((statesOf (findOrCreate (msgType m) (msgAid m) store).1).map
          (fun e => getPath e ["kai_state", "msg_id"])).contains
        (some (Val.vstr m.message_id))) = true →
      ∃ artifact, handler_rpm_build_test_common ext m store =
          Except.ok (artifact, (findOrCreate (msgType m) (msgAid m) store).2) ∧
        getKey artifact "states" =
          some (Val.varr (statesOf (findOrCreate (msgType m) (msgAid m) store).1))) ∧
    (∀ (ext : JsExt) (m : BrokerMsg) (store : List Val) (p : Val),
      handler_rpm_build_test_common ext m store = Except.ok (p, store) →
      validate_db_artifact p = true →
      findOrCreate ((asStr (getKey p "type")).getD "")
          ((asStr (getKey p "aid")).getD "") store = (p, store) →
      Artifacts.add ext m store = Except.ok (p, store, 0)) := by
  constructor
  · intro ext m store st hst hdup
    obtain ⟨fs0, hfs0⟩ := findOrCreate_vobj (msgType m) (msgAid m) store
    unfold handler_rpm_build_test_common
    rw [hst]
    dsimp only
    rw [hdup]
    refine ⟨_, rfl, ?_⟩
    rw [hfs0]
    simp only [Bool.not_true, Bool.false_eq_true, if_false]
    show (setField (setField fs0 "states" (Val.varr (statesOf (Val.vobj fs0)))) "rpm_build"
        _).lookup "states" = some (Val.varr (statesOf (Val.vobj fs0)))
    rw [setField_lookup_other _ "rpm_build" "states" _ (by decide),
      setField_lookup_same]
  · intro ext m store p hhandler hvalid hfc
    unfold Artifacts.add
    rw [hhandler]
    dsimp only
    rw [hvalid]
    rw [hfc]
    dsimp only
    rw [mk_update_set_self]
    rfl

/-- C4 (witness): the amended statement evaluated on the fixtures: the
second delivery of `mC4` does not duplicate the state entry, and the
third delivery (once the document has absorbed the proposal) returns the
proposal with zero writes and an unchanged store. -/
theorem C4_second_delivery_witness :
    (∃ artifact, handler_rpm_build_test_common ext0 mC4 store1C4 =
        Except.ok (artifact, (findOrCreate (msgType mC4) (msgAid mC4) store1C4).2) ∧
      getKey artifact "states" =
        some (Val.varr (statesOf (findOrCreate (msgType mC4) (msgAid mC4) store1C4).1))) ∧
    Artifacts.add ext0 mC4 store2C4 = Except.ok (p2C4, store2C4, 0) :=
  ⟨C4_second_delivery.1 ext0 mC4 store1C4 stC4 rfl rfl,
   C4_second_delivery.2 ext0 mC4 store2C4 p2C4 rfl rfl rfl⟩

/-- C6: after a refresh of the derived fields, every entry of every
`current_state` bucket is an entry of `states` whose timestamp is maximal
among the entries sharing its `thread_id` (timestamps assumed numeric, as
the data model requires). -/
theorem C6_current_state_most_recent (l : List Val)
    (hnum : ∀ e ∈ l, ∃ n : Int, tsOf e = some (Val.vnum n))
    (k : String) (g : List Val) (hkg : (k, g) ∈ mk_current_state l)
    (e : Val) (he : e ∈ g) :
    e ∈ l ∧ ∀ e2 ∈ l, threadKey e2 = threadKey e → tsInt e2 ≤ tsInt e := by
  unfold mk_current_state at hkg
  rw [List.mem_append] at hkg
  cases hkg with
  | inl hmem =>
    have hspec := (groupByKey_mem stateKey (recent_for_each_thread l) k g).mp hmem
    obtain ⟨_, hfil⟩ := hspec
    subst hfil
    have herec : e ∈ recent_for_each_thread l := (List.mem_filter.mp he).1
    have h := recent_for_each_thread_spec l e herec
    exact ⟨h.1, h.2 hnum⟩
  | inr hmem =>
    rw [List.mem_map] at hmem
    obtain ⟨k2, _, heq⟩ := hmem
    rw [Prod.mk.injEq] at heq
    rw [← heq.2] at he
    simp at he

/-- C6 (witness): the invariant evaluated on two entries of one thread:
the surviving `complete` entry `eB` carries the larger timestamp. -/
theorem C6_current_state_witness :
    eB ∈ [eA, eB] ∧
    ∀ e2 ∈ [eA, eB], threadKey e2 = threadKey eB → tsInt e2 ≤ tsInt eB := by
  have h := C6_current_state_most_recent [eA, eB]
    (by
      intro e he
      rcases List.mem_cons.mp he with rfl | he2
      · exact ⟨5, rfl⟩
      · rcases List.mem_cons.mp he2 with rfl | he3
        · exact ⟨9, rfl⟩
        · simp at he3)
    "complete" [eB] (by decide) eB (by decide)
  exact h

/-- C5 (counterexample): the key set of `current_state_lenghts` is not
always the set of non-empty observed `kai_state.state` values: an entry
whose state is the empty string survives as the most recent entry of its
thread and produces the key `""` with count 1, while the set of non-empty
observed states is empty. -/
theorem C5_lenghts_counterexample :
    (mk_current_state_lenghts [e0C5]).map Prod.fst = [""] ∧
    observed_nonempty_states [e0C5] = [] ∧
    "" ∈ (mk_current_state_lenghts [e0C5]).map Prod.fst ∧
    "" ∉ observed_nonempty_states [e0C5] ∧
    (mk_current_state_lenghts [e0C5]).map Prod.fst ≠ observed_nonempty_states [e0C5] :=
  ⟨rfl, rfl, by decide, by decide, by decide⟩

/-- C5 (amended): after every refresh, `current_state_lenghts` binds every
`current_state` key to the size of its bucket; and provided every
observed `kai_state.state` value is a non-empty string, the key set of
`current_state_lenghts` is exactly the set of observed state values
(states with no surviving entry map to an empty bucket).  An entry whose
state is the empty string can otherwise surface as an extra `""` key. -/
theorem C5_lenghts_spec (l : List Val) :
    (∀ k n, (k, n) ∈ mk_current_state_lenghts l ↔
      ∃ g, (k, g) ∈ mk_current_state l ∧ n = g.length) ∧
    ((∀ e ∈ l, ∃ s : String, s ≠ "" ∧
        getPath e ["kai_state", "state"] = some (Val.vstr s)) →
      ∀ k, k ∈ (mk_current_state_lenghts l).map Prod.fst ↔
        ∃ e ∈ l, getPath e ["kai_state", "state"] = some (Val.vstr k)) := by
  constructor
  · intro k n
    unfold mk_current_state_lenghts
    rw [List.mem_map]
    constructor
    · rintro ⟨⟨k2, g⟩, hmem, heq⟩
      rw [Prod.mk.injEq] at heq
      obtain ⟨h1, h2⟩ := heq
      subst h1
      exact ⟨g, hmem, h2.symm⟩
    · rintro ⟨g, hmem, rfl⟩
      exact ⟨(k, g), hmem, rfl⟩
  · intro hobs k
    have hkeys : (mk_current_state_lenghts l).map Prod.fst =
        (mk_current_state l).map Prod.fst := by
      unfold mk_current_state_lenghts
      rw [List.map_map]
      rfl
    rw [hkeys]
    unfold mk_current_state
    constructor
    · intro hk
      simp only [List.map_append, List.mem_append] at hk
      cases hk with
      | inl hk =>
        unfold groupByKey at hk
        rw [List.map_map, List.mem_map] at hk
        obtain ⟨k2, hk2, heq⟩ := hk
        simp only [Function.comp] at heq
        subst heq
        rw [List.mem_dedup, List.mem_map] at hk2
        obtain ⟨r, hr, hkey⟩ := hk2
        have hrl : r ∈ l := (recent_for_each_thread_spec l r hr).1
        obtain ⟨s, hs0, hsv⟩ := hobs r hrl
        refine ⟨r, hrl, ?_⟩
        rw [hsv]
        have : stateKey r = s := by
          unfold stateKey
          rw [hsv]
          rfl
        rw [← hkey, this]
      | inr hk =>
        rw [List.map_map, List.mem_map] at hk
        obtain ⟨k2, hk2, heq⟩ := hk
        simp only [Function.comp] at heq
        subst heq
        have hk3 := List.mem_of_mem_filter hk2
        unfold known_state_keys at hk3
        rw [List.mem_dedup, List.mem_map] at hk3
        obtain ⟨v, hv, hkey⟩ := hk3
        rw [List.mem_filter, List.mem_dedup, List.mem_map] at hv
        obtain ⟨⟨e, hel, hev⟩, _⟩ := hv
        obtain ⟨s, hs0, hsv⟩ := hobs e hel
        refine ⟨e, hel, ?_⟩
        rw [hsv]
        subst hkey
        rw [hev] at hsv
        rw [hsv]
        rfl
    · rintro ⟨e, hel, hev⟩
      obtain ⟨s, hs0, hsv⟩ := hobs e hel
      rw [hsv] at hev
      have hks : k = s := by
        have := Option.some.inj hev
        cases this
        rfl
      subst hks
      simp only [List.map_append, List.mem_append]
      by_cases hin : k ∈ (groupByKey stateKey (recent_for_each_thread l)).map Prod.fst
      · exact Or.inl hin
      · refine Or.inr ?_
        rw [List.map_map, List.mem_map]
        refine ⟨k, ?_, rfl⟩
        rw [List.mem_filter]
        constructor
        · unfold known_state_keys
          rw [List.mem_dedup, List.mem_map]
          refine ⟨some (Val.vstr k), ?_, rfl⟩
          rw [List.mem_filter, List.mem_dedup, List.mem_map]
          refine ⟨⟨e, hel, hsv.symm ▸ rfl⟩, ?_⟩
          simp [isEmptyOpt, hs0]
        · simpa using hin

/-- C5 (witness): the amended key-set law evaluated on two entries of one
thread with non-empty states: the key `queued` is present (as an empty
bucket, its entry having been superseded) and counts match buckets. -/
theorem C5_lenghts_witness :
    (("complete", 1) ∈ mk_current_state_lenghts [eA, eB] ↔
      ∃ g, ("complete", g) ∈ mk_current_state [eA, eB] ∧ 1 = g.length) ∧
    ("queued" ∈ (mk_current_state_lenghts [eA, eB]).map Prod.fst ↔
      ∃ e ∈ [eA, eB], getPath e ["kai_state", "state"] = some (Val.vstr "queued")) := by
  have h := C5_lenghts_spec [eA, eB]
  refine ⟨h.1 "complete" 1, h.2 ?_ "queued"⟩
  intro e he
  rcases List.mem_cons.mp he with rfl | he2
  · exact ⟨"queued", by decide, rfl⟩
  · rcases List.mem_cons.mp he2 with rfl | he3
    · exact ⟨"complete", by decide, rfl⟩
    · simp at he3

/-- C10 (witness): the frame property evaluated on a concrete store: the
existing document of `(koji-build, 42)` is returned unchanged, and a
creating call returns a fresh document with version 1. -/
theorem C10_findOrCreate_witness :
    findOrCreate "koji-build" "42" [d0C4] = (d0C4, [d0C4]) ∧
    findOrCreate "t" "7" [] =
      (Val.vobj [("type", Val.vstr "t"), ("aid", Val.vstr "7"), ("_version", Val.vnum 1)],
       [Val.vobj [("type", Val.vstr "t"), ("aid", Val.vstr "7"), ("_version", Val.vnum 1)]]) :=
  ⟨(C10_findOrCreate_frame "koji-build" "42").1 [d0C4] d0C4 rfl,
   (C10_findOrCreate_frame "t" "7").2 [] rfl⟩

end Kaijs
